import Mathlib

/-!
Verification model for the `pseudo-json` repository.

The core of the repository is the class `PseudoJSON` (source file
`src/pseudo-json.ts`, provided as `src/unnamed/part_000`): a renderer
(`stringify`) that turns a runtime value into JavaScript literal text, a
loader (`parse`) that strips a recognized export wrapper and executes the
remaining text, a module-wrapper generator (`generateExportModule`), a
symbol classifier (`_symbol`) and a cycle detector (`_cyclic` over the
instance field `_exists`).

Strings are modelled as lists of characters (`List Char`), with `String`
wrappers at the API surface.  JavaScript numbers are modelled as a tagged
union of the three sentinels (`NaN`, `Infinity`, `-Infinity`) and finite
integer-valued doubles carried as `Int`; double rounding of out-of-range
integer literals is modelled exactly (round to nearest, ties to even, 53-bit
mantissa) by `roundNat`/`roundInt`.
-/

set_option maxHeartbeats 1000000

namespace PseudoJson

/-! ### Character classes and digit utilities -/

def lbraceC : Char := '\x7b'

def rbraceC : Char := '\x7d'

def isDigitC (c : Char) : Bool := 48 ≤ c.toNat && c.toNat ≤ 57

def isAlphaC (c : Char) : Bool :=
  (65 ≤ c.toNat && c.toNat ≤ 90) || (97 ≤ c.toNat && c.toNat ≤ 122)

def isIdentStartC (c : Char) : Bool := isAlphaC c || c = '_' || c = '$'

def isIdentC (c : Char) : Bool := isAlphaC c || isDigitC c || c = '_' || c = '$'

def digitChar (n : Nat) : Char := Char.ofNat (48 + n)

/-- Decimal digits of a natural number, most significant first; models the
behaviour of JavaScript `String(n)` on non-negative integers. -/
def natToChars (n : Nat) : List Char :=
  if n < 10 then [digitChar n]
  else natToChars (n / 10) ++ [digitChar (n % 10)]
decreasing_by exact Nat.div_lt_self (by omega) (by omega)

/-- Decimal text of an integer, models `String(i)` / `i.toString()` for
integer values (minus sign followed by the digits when negative). -/
def intChars (i : Int) : List Char :=
  if i < 0 then '-' :: natToChars i.natAbs else natToChars i.natAbs

/-- Accumulating decimal reader: consumes the maximal run of leading digits. -/
def readDigits : Nat → List Char → Nat × List Char
  | acc, [] => (acc, [])
  | acc, c :: cs =>
    if isDigitC c then readDigits (acc * 10 + (c.toNat - 48)) cs else (acc, c :: cs)

/-! ### IEEE-754 binary64 rounding of integers

JavaScript evaluates a bare decimal integer literal as a double.  For
magnitudes up to `2 ^ 53` this is exact; beyond that the value is rounded to
the nearest representable double (ties to even).  `roundNat` implements this
rounding exactly on naturals. -/

/-- Base-2 logarithm, fuel-structural (`log2F n n = Nat.log2 n`). -/
def log2F : Nat → Nat → Nat
  | 0, _ => 0
  | f + 1, n => if 2 ≤ n then log2F f (n / 2) + 1 else 0

def nlog2 (n : Nat) : Nat := log2F n n

def roundNat (m : Nat) : Nat :=
  if m ≤ 2 ^ 53 then m
  else
    let e := nlog2 m - 52
    let q := m / 2 ^ e
    let r := m % 2 ^ e
    let h := 2 ^ (e - 1)
    let q' := if r < h then q else if h < r then q + 1
      else if q % 2 = 0 then q else q + 1
    q' * 2 ^ e

def roundInt (i : Int) : Int :=
  if i < 0 then -(roundNat i.natAbs : Int) else (roundNat i.natAbs : Int)

/-! ### JSON string quoting (model of `$jsonStrfy` = `JSON.stringify` on strings) -/

def hexDigitChar (n : Nat) : Char :=
  if n < 10 then digitChar n else Char.ofNat (97 + n - 10)

/-- Escape of one character inside a JSON string literal, exactly the set
escaped by `JSON.stringify`: the quote, the backslash, the named control
escapes, and `\u00XX` for the remaining control characters. -/
def escChar (c : Char) : List Char :=
  if c = '"' then ['\\', '"']
  else if c = '\\' then ['\\', '\\']
  else if c = Char.ofNat 8 then ['\\', 'b']
  else if c = Char.ofNat 9 then ['\\', 't']
  else if c = Char.ofNat 10 then ['\\', 'n']
  else if c = Char.ofNat 12 then ['\\', 'f']
  else if c = Char.ofNat 13 then ['\\', 'r']
  else if c.toNat < 32 then
    ['\\', 'u', '0', '0', hexDigitChar (c.toNat / 16), hexDigitChar (c.toNat % 16)]
  else [c]

def escList (s : List Char) : List Char := s.foldr (fun c acc => escChar c ++ acc) []

/-- Model of `JSON.stringify` applied to a string value (char-list level). -/
def quoteChars (s : List Char) : List Char := '"' :: (escList s ++ ['"'])

/-- Model of the aliased native `$jsonStrfy` on strings. -/
def jsonStrfy (s : String) : String := ⟨quoteChars s.data⟩

/-- Value of a hexadecimal digit character. -/
def hexVal (c : Char) : Option Nat :=
  if 48 ≤ c.toNat && c.toNat ≤ 57 then some (c.toNat - 48)
  else if 97 ≤ c.toNat && c.toNat ≤ 102 then some (c.toNat - 87)
  else if 65 ≤ c.toNat && c.toNat ≤ 70 then some (c.toNat - 55)
  else none

/-- Decoded character of a single-letter escape sequence. -/
def escDecode (e : Char) : Option Char :=
  if e = '"' then some '"'
  else if e = '\\' then some '\\'
  else if e = '/' then some '/'
  else if e = 'b' then some (Char.ofNat 8)
  else if e = 't' then some (Char.ofNat 9)
  else if e = 'n' then some (Char.ofNat 10)
  else if e = 'f' then some (Char.ofNat 12)
  else if e = 'r' then some (Char.ofNat 13)
  else none

mutual

/-- Reads the body of a double-quoted JavaScript string literal (the part
after the opening quote), un-escaping as the engine would, up to and
including the closing quote.  Returns the decoded characters and the rest of
the input. -/
def pStrBody : List Char → Option (List Char × List Char)
  | [] => none
  | c :: rest =>
    if c = '"' then some ([], rest)
    else if c = '\\' then pEscTail rest
    else (pStrBody rest).map (fun p => (c :: p.1, p.2))
termination_by cs => cs.length + 1
decreasing_by all_goals (simp only [List.length_cons]; omega)

/-- The input after a backslash inside a string literal. -/
def pEscTail : List Char → Option (List Char × List Char)
  | [] => none
  | e :: rest2 =>
    if e = 'u' then pHex4 rest2
    else
      match escDecode e with
      | some d => (pStrBody rest2).map (fun p => (d :: p.1, p.2))
      | none => none
termination_by cs => cs.length + 1
decreasing_by all_goals (simp only [List.length_cons]; omega)

/-- The four hex digits of a `\uXXXX` escape, then the rest of the body. -/
def pHex4 : List Char → Option (List Char × List Char)
  | h1 :: h2 :: h3 :: h4 :: rest' =>
    match hexVal h1, hexVal h2, hexVal h3, hexVal h4 with
    | some a, some b, some c3, some d =>
      (pStrBody rest').map
        (fun p => (Char.ofNat (((a * 16 + b) * 16 + c3) * 16 + d) :: p.1, p.2))
    | _, _, _, _ => none
  | _ => none
termination_by cs => cs.length
decreasing_by all_goals (simp only [List.length_cons]; omega)

end

/-! ### The value model

A tagged union over the runtime values the renderer dispatches on
(`src/unnamed/part_000`, `_stringify`).  Callables are render-only (their
source text is captured verbatim at runtime) and are not part of the value
model; the claims under study exclude them.  `Map`/`Set` entries are kept as
lists in iteration (insertion) order. -/

inductive JsNum where
  | nan
  | inf
  | ninf
  | fin (n : Int)
deriving Repr

/-- A symbol is either locally unique with an optional description, or
registered in the global registry under a key (in JavaScript the
description of `Symbol.for(k)` is `k` itself). -/
inductive JsSym where
  | loc (d : Option String)
  | glob (k : String)
deriving Repr

/-- An own key of a plain record: a string key or a symbol key. -/
inductive JsKey where
  | str (s : String)
  | sym (s : JsSym)
deriving Repr

inductive JsVal where
  | nullV
  | undef
  | str (s : String)
  | num (n : JsNum)
  | bool (b : Bool)
  | bigint (n : Int)
  | sym (s : JsSym)
  | date (ms : Int)
  | regexp (src flags : String)
  | error (name msg stack : String)
  | map (entries : List (JsVal × JsVal))
  | set (elems : List JsVal)
  | arr (elems : List JsVal)
  | obj (fields : List (JsKey × JsVal))
deriving Repr

/-! ### Symbol classifier

Model of `PseudoJSON._symbol` (part_000 lines 70-80):

```
if (Symbol.keyFor(value)) return `Symbol.for(${$jsonStrfy(value.description)})`;
if (value.description === undefined) return 'Symbol()';
return `Symbol(${$jsonStrfy(value.description)})`;
```

`Symbol.keyFor` yields the registry key for a registered symbol and
`undefined` otherwise; the `if` tests its truthiness, so the empty-string
key takes the second branch.  For a registered symbol the description
equals the registry key. -/

def keyFor : JsSym → Option String
  | .loc _ => none
  | .glob k => some k

def symDescr : JsSym → Option String
  | .loc d => d
  | .glob k => some k

def symbolChars (s : JsSym) : List Char :=
  match keyFor s with
  | some k =>
    if k.data ≠ [] then
      ("Symbol.for(".data) ++ quoteChars k.data ++ [')']
    else
      localSymbolChars s
  | none => localSymbolChars s
where
  localSymbolChars (s : JsSym) : List Char :=
    match symDescr s with
    | none => ("Symbol()".data)
    | some d => ("Symbol(".data) ++ quoteChars d.data ++ [')']

/-- Model of the variant helper `$stringifySymbol` from
`src/unnamed/part_001`, whose registration test is negated:

```
if (!Symbol.keyFor(value)) return `Symbol.for(${JSON.stringify(value.description)})`;
if (value.description === undefined) return 'Symbol()';
return `Symbol(${JSON.stringify(value.description)})`;
```
-/
def stringifySymbolCommon (s : JsSym) : List Char :=
  if (match keyFor s with | some k => !k.data.isEmpty | none => false) then
    match symDescr s with
    | none => ("Symbol()".data)
    | some d => ("Symbol(".data) ++ quoteChars d.data ++ [')']
  else
    ("Symbol.for(".data) ++
      (match symDescr s with
       | none => ("undefined".data)
       | some d => quoteChars d.data) ++ [')']

/-! ### Renderer

Model of `PseudoJSON._stringify` (part_000 lines 91-182) at the char-list
level.  `ind` is the instance's `_indent` string fixed at construction,
`cur` the `currentIndent` threaded through recursive calls.  Join with
`", "` models `Array.prototype.join(', ')`.

The `_exists` identity set is not threaded here: values of the inductive
type `JsVal` are trees, and in the runtime every sub-object of a tree value
has a distinct identity, so `_cyclic` never fires on them (the identity
machinery is modelled faithfully on an explicit heap below, for the claims
about cycles). -/

def joinComma : List (List Char) → List Char
  | [] => []
  | [x] => x
  | x :: xs => x ++ (", ".data) ++ joinComma xs

/-- `items.join(',\n' + nextIndent)` with leading `'[\n' + nextIndent` and
trailing `'\n' + currentIndent + ']'`, as in the indented array branch. -/
def joinIndent (nxt : List Char) : List (List Char) → List Char
  | [] => []
  | [x] => x
  | x :: xs => x ++ (',' :: '\n' :: nxt) ++ joinIndent nxt xs

def numChars : JsNum → List Char
  | .nan => ("NaN".data)
  | .inf => ("Infinity".data)
  | .ninf => ("-Infinity".data)
  | .fin n => intChars n

/-- Rendering of an `Error` value (part_000 line 137): a self-invoking
arrow construction.  Note the source text between the `stack` assignment
and `return` — reproduced here exactly. -/
def errorChars (name msg stack : String) : List Char :=
  ("((e)=>".data) ++ [lbraceC] ++ ("e.name=".data) ++ quoteChars name.data ++
    (";e.stack=".data) ++ quoteChars stack.data ++ ("return e;".data) ++ [rbraceC] ++
    (")(new Error(".data) ++ quoteChars msg.data ++ ("))".data)

mutual

def renderV (ind cur : List Char) : JsVal → List Char
  | .nullV => ("null".data)
  | .undef => ("undefined".data)
  | .str s => quoteChars s.data
  | .num n => numChars n
  | .bool b => if b then ("true".data) else ("false".data)
  | .bigint n => intChars n
  | .sym s => symbolChars s
  | .date ms => ("new Date(".data) ++ intChars ms ++ [')']
  | .regexp src flags => '/' :: src.data ++ '/' :: flags.data
  | .error name msg stack => errorChars name msg stack
  | .map entries =>
    ("new Map([".data) ++ joinComma (renderPairs ind cur entries) ++ ("])".data)
  | .set elems =>
    ("new Set([".data) ++ joinComma (renderList ind cur elems) ++ ("])".data)
  | .arr elems =>
    if elems.isEmpty then ("[]".data)
    else
      let items := renderList ind (cur ++ ind) elems
      if ind.isEmpty then '[' :: joinComma items ++ [']']
      else '[' :: '\n' :: (cur ++ ind) ++ joinIndent (cur ++ ind) items ++
        '\n' :: cur ++ [']']
  | .obj fields =>
    if fields.isEmpty then [lbraceC, rbraceC]
    else
      let pairs := renderFields ind (cur ++ ind) fields
      if ind.isEmpty then lbraceC :: joinComma pairs ++ [rbraceC]
      else lbraceC :: '\n' :: (cur ++ ind) ++ joinIndent (cur ++ ind) pairs ++
        '\n' :: cur ++ [rbraceC]

def renderList (ind cur : List Char) : List JsVal → List (List Char)
  | [] => []
  | v :: vs => renderV ind cur v :: renderList ind cur vs

def renderPairs (ind cur : List Char) : List (JsVal × JsVal) → List (List Char)
  | [] => []
  | (k, v) :: ps =>
    ('[' :: renderV ind cur k ++ (", ".data) ++ renderV ind cur v ++ [']']) ::
      renderPairs ind cur ps

def renderFields (ind cur : List Char) : List (JsKey × JsVal) → List (List Char)
  | [] => []
  | (k, v) :: fs =>
    (keyChars k ++ (": ".data) ++ renderV ind cur v) :: renderFields ind cur fs

/-- `keyStr`: a string key is emitted bare; a symbol key as a computed key. -/
def keyChars : JsKey → List Char
  | .str s => s.data
  | .sym s => '[' :: symbolChars s ++ [']']

end

/-- Model of the public `PseudoJSON.stringify` method on an instance whose
`_indent` is `ind` (the recursion starts with `currentIndent = ''`). -/
def stringify (ind : String) (v : JsVal) : String := ⟨renderV ind.data [] v⟩

/-- `stringify` on a default instance (`new PseudoJSON()`, empty indent). -/
def stringify0 (v : JsVal) : String := stringify "" v

/-! ### Loader evaluation

Modelled from the spec: `PseudoJSON.parse` executes the (wrapper-stripped)
text as a function body `"use strict"; return (<text>)` through the host
engine; the engine itself is not part of the repository, so its evaluation
of the literal sub-grammar the renderer emits is modelled here as a
recursive-descent evaluator.  It covers exactly the constructs the renderer
emits — literals, the numeric sentinels, symbol constructor and registry
calls, `new Date`/`new Map`/`new Set` calls, regex literals, arrays and
object literals (bare identifier keys and computed symbol keys) — and
rejects text outside that sub-grammar (as the engine rejects e.g. an
identifier key containing a space).  Fuel bounds the recursion depth. -/

/-- Longest identifier-character run at the head of the input. -/
def munchIdent : List Char → List Char × List Char
  | [] => ([], [])
  | c :: cs =>
    if isIdentC c then
      let (w, r) := munchIdent cs
      (c :: w, r)
    else ([], c :: cs)

/-- Characters of a regex literal body: everything up to the closing `/`. -/
def munchRegex : List Char → Option (List Char × List Char)
  | [] => none
  | c :: cs =>
    if c = '/' then some ([], cs)
    else if c = '\n' then none
    else do
      let (b, r) ← munchRegex cs
      pure (c :: b, r)

/-- Longest alphabetic run (regex flags). -/
def munchAlpha : List Char → List Char × List Char
  | [] => ([], [])
  | c :: cs =>
    if isAlphaC c then
      let (w, r) := munchAlpha cs
      (c :: w, r)
    else ([], c :: cs)

/-- Matches a literal word at the head of the input, returning the
remainder after it. -/
def matchLit : List Char → List Char → Option (List Char)
  | [], cs => some cs
  | _, [] => none
  | p :: ps, c :: cs => if p = c then matchLit ps cs else none

/-- A `Symbol...` expression after the identifier `Symbol` has been read:
either `.for("k")`, or `()`, or `("d")`. -/
def pSymbolTail (cs : List Char) : Option (JsSym × List Char) :=
  match matchLit (".for(\"".data) cs with
  | some cs' =>
    match pStrBody cs' with
    | some (k, r) =>
      match matchLit [')'] r with
      | some r' => some (.glob ⟨k⟩, r')
      | none => none
    | none => none
  | none =>
    match matchLit ("()".data) cs with
    | some r => some (.loc none, r)
    | none =>
      match matchLit ("(\"".data) cs with
      | some cs' =>
        match pStrBody cs' with
        | some (d, r) =>
          match matchLit [')'] r with
          | some r' => some (.loc (some ⟨d⟩), r')
          | none => none
        | none => none
      | none => none

/-- An optionally negated decimal integer literal, evaluated as a double. -/
def pIntLit : List Char → Option (Int × List Char)
  | [] => none
  | c :: cs =>
    if c = '-' then
      match cs with
      | c2 :: _ =>
        if isDigitC c2 then
          let (n, r) := readDigits 0 cs
          some (roundInt (-(n : Int)), r)
        else none
      | [] => none
    else if isDigitC c then
      let (n, r) := readDigits 0 (c :: cs)
      some (roundInt (n : Int), r)
    else none

mutual

def pExpr : Nat → List Char → Option (JsVal × List Char)
  | 0, _ => none
  | _ + 1, [] => none
  | n + 1, c :: cs =>
    if c = '"' then
      match pStrBody cs with
      | some (b, r) => some (.str ⟨b⟩, r)
      | none => none
    else if c = '/' then
      match munchRegex cs with
      | some (b, r) =>
        if b.isEmpty then none
        else
          let (fl, r') := munchAlpha r
          some (.regexp ⟨b⟩ ⟨fl⟩, r')
      | none => none
    else if c = '[' then
      match matchLit [']'] cs with
      | some r => some (.arr [], r)
      | none =>
        match pElems n cs with
        | some (es, r1) =>
          match matchLit [']'] r1 with
          | some r => some (.arr es, r)
          | none => none
        | none => none
    else if c = lbraceC then
      match matchLit [rbraceC] cs with
      | some r => some (.obj [], r)
      | none =>
        match pFields n cs with
        | some (fs, r1) =>
          match matchLit [rbraceC] r1 with
          | some r => some (.obj fs, r)
          | none => none
        | none => none
    else if c = '-' then
      match matchLit ("Infinity".data) cs with
      | some r => some (.num .ninf, r)
      | none =>
        match pIntLit (c :: cs) with
        | some (i, r) => some (.num (.fin i), r)
        | none => none
    else if isDigitC c then
      match pIntLit (c :: cs) with
      | some (i, r) => some (.num (.fin i), r)
      | none => none
    else if isIdentStartC c then
      let (w, r) := munchIdent (c :: cs)
      if w = ("null".data) then some (.nullV, r)
      else if w = ("undefined".data) then some (.undef, r)
      else if w = ("true".data) then some (.bool true, r)
      else if w = ("false".data) then some (.bool false, r)
      else if w = ("NaN".data) then some (.num .nan, r)
      else if w = ("Infinity".data) then some (.num .inf, r)
      else if w = ("Symbol".data) then
        match pSymbolTail r with
        | some (s, r') => some (.sym s, r')
        | none => none
      else if w = ("new".data) then
        match matchLit [' '] r with
        | some r1 =>
          let (w2, r2) := munchIdent r1
          if w2 = ("Date".data) then
            match matchLit ['('] r2 with
            | some r3 =>
              match pIntLit r3 with
              | some (i, r4) =>
                match matchLit [')'] r4 with
                | some r5 => some (.date i, r5)
                | none => none
              | none => none
            | none => none
          else if w2 = ("Map".data) then
            match matchLit ("([])".data) r2 with
            | some r3 => some (.map [], r3)
            | none =>
              match matchLit ("([".data) r2 with
              | some r3 =>
                match pPairs n r3 with
                | some (ps, r4) =>
                  match matchLit ("])".data) r4 with
                  | some r5 => some (.map ps, r5)
                  | none => none
                | none => none
              | none => none
          else if w2 = ("Set".data) then
            match matchLit ("([])".data) r2 with
            | some r3 => some (.set [], r3)
            | none =>
              match matchLit ("([".data) r2 with
              | some r3 =>
                match pElems n r3 with
                | some (es, r4) =>
                  match matchLit ("])".data) r4 with
                  | some r5 => some (.set es, r5)
                  | none => none
                | none => none
              | none => none
          else none
        | none => none
      else none
    else none

/-- `expr (", " expr)*` — elements of an array or `Set` payload. -/
def pElems : Nat → List Char → Option (List JsVal × List Char)
  | 0, _ => none
  | n + 1, cs =>
    match pExpr n cs with
    | some (v, r) =>
      match matchLit (", ".data) r with
      | some r2 =>
        match pElems n r2 with
        | some (vs, r3) => some (v :: vs, r3)
        | none => none
      | none => some ([v], r)
    | none => none

/-- `[k, v] (", " [k, v])*` — the entry array of a `Map` payload. -/
def pPairs : Nat → List Char → Option (List (JsVal × JsVal) × List Char)
  | 0, _ => none
  | n + 1, cs =>
    match matchLit ['['] cs with
    | some cs1 =>
      match pExpr n cs1 with
      | some (k, r1) =>
        match matchLit (", ".data) r1 with
        | some r2 =>
          match pExpr n r2 with
          | some (v, r3) =>
            match matchLit [']'] r3 with
            | some r4 =>
              match matchLit (", ".data) r4 with
              | some r5 =>
                match pPairs n r5 with
                | some (ps, r6) => some ((k, v) :: ps, r6)
                | none => none
              | none => some ([(k, v)], r4)
            | none => none
          | none => none
        | none => none
      | none => none
    | none => none

/-- `key ": " expr (", " key ": " expr)*` — fields of an object literal;
a key is a bare identifier or a computed symbol key `[Symbol...]`. -/
def pFields : Nat → List Char → Option (List (JsKey × JsVal) × List Char)
  | 0, _ => none
  | n + 1, cs =>
    match matchLit ['['] cs with
    | some cs1 =>
      match pExpr n cs1 with
      | some (.sym s, r0) =>
        match matchLit ("]: ".data) r0 with
        | some r2 =>
          match pExpr n r2 with
          | some (v, r3) =>
            match matchLit (", ".data) r3 with
            | some r4 =>
              match pFields n r4 with
              | some (fs, r5) => some ((JsKey.sym s, v) :: fs, r5)
              | none => none
            | none => some ([(JsKey.sym s, v)], r3)
          | none => none
        | none => none
      | _ => none
    | none =>
      let (w, r) := munchIdent cs
      if w.isEmpty then none
      else
        match matchLit (": ".data) r with
        | some r2 =>
          match pExpr n r2 with
          | some (v, r3) =>
            match matchLit (", ".data) r3 with
            | some r4 =>
              match pFields n r4 with
              | some (fs, r5) => some ((JsKey.str ⟨w⟩, v) :: fs, r5)
              | none => none
            | none => some ([(JsKey.str ⟨w⟩, v)], r3)
          | none => none
        | none => none

end

/-- Evaluation of a complete expression text (the `return (<text>)` of the
loader): the whole input must be consumed. -/
def pLit (cs : List Char) : Option JsVal :=
  match pExpr (cs.length + 1) cs with
  | some (v, []) => some v
  | _ => none

/-! ### Export-wrapper stripping

Model of the regular expression in `PseudoJSON.parse` (part_000 line 236):

```
code.replace(/^\s*(?:export\s+default|module\s*\.\s*exports)\s*(?:=\s*)?/, '')
```

anchored at the start of the whole string (no `m` flag). -/

def isWsC (c : Char) : Bool :=
  c = ' ' || c = '\t' || c = '\n' || c = '\r' || c = Char.ofNat 12 || c = Char.ofNat 11

/-- One-or-more whitespace (`\s+`). -/
def matchWs1 (cs : List Char) : Option (List Char) :=
  match cs with
  | c :: rest => if isWsC c then some (rest.dropWhile isWsC) else none
  | [] => none

/-- The full anchored wrapper pattern; returns the text after the match. -/
def matchExportPrefix (cs : List Char) : Option (List Char) :=
  let cs1 := cs.dropWhile isWsC
  let afterKw :=
    match matchLit ("export".data) cs1 with
    | some r1 =>
      match matchWs1 r1 with
      | some r2 => matchLit ("default".data) r2
      | none => none
    | none =>
      match matchLit ("module".data) cs1 with
      | some r1 =>
        match matchLit ['.'] (r1.dropWhile isWsC) with
        | some r2 => matchLit ("exports".data) (r2.dropWhile isWsC)
        | none => none
      | none => none
  match afterKw with
  | some r =>
    let r1 := r.dropWhile isWsC
    match r1 with
    | '=' :: r2 => some (r2.dropWhile isWsC)
    | _ => some r1
  | none => none

/-- `cleaned` in `PseudoJSON.parse`: the wrapper prefix replaced by `''`
when it matches at the start of the string, the input otherwise. -/
def cleanedOf (code : String) : String :=
  match matchExportPrefix code.data with
  | some rest => ⟨rest⟩
  | none => code

/-- Model of `PseudoJSON.parse`: strip the wrapper, then evaluate the rest
as `return (<cleaned>)` — i.e. as a single literal expression. -/
def parse (code : String) : Option JsVal := pLit (cleanedOf code).data

/-! ### Module-wrapper generator

Model of `PseudoJSON.generateExportModule` (part_000 lines 209-225).  The
source reads `options.codeAboveExport`, checks that it is a string, and
then builds the returned text without using it — the model reproduces
that: the `codeAbove` argument is bound but does not occur in any output
branch. -/

def generateExportModule (dataStr : String) (mtype : String)
    (codeAbove : Option String) : Except String String :=
  let _codeAboveExport := codeAbove.getD ""
  if mtype = "esm" then .ok ("export default " ++ dataStr ++ "\n")
  else if mtype = "cjs" then .ok ("module.exports = " ++ dataStr ++ "\n")
  else .error ("Unsupported module type: " ++ mtype)

/-! ### Statement-sequence validity for the Error rendering

Modelled from the spec: the Error rendering must be "a literal self-invoking
construction expression" — its arrow body must be a sequence of statements
(two assignments and a `return`) separated by `;`.  `errBodyOk` checks the
intended body shape `e.name=<strlit>;e.stack=<strlit>;return e;`, requiring
a statement separator after each assignment, as the engine's grammar does
(without a line terminator no automatic semicolon is inserted between a
string literal and `return`). -/

def afterStrLit : List Char → Option (List Char)
  | [] => none
  | c :: cs => if c = '"' then (pStrBody cs).map Prod.snd else none

def errBodyOk (cs : List Char) : Bool :=
  match matchLit ("e.name=".data) cs with
  | some r1 =>
    match afterStrLit r1 with
    | some (';' :: r2) =>
      match matchLit ("e.stack=".data) r2 with
      | some r3 =>
        match afterStrLit r3 with
        | some (';' :: r4) =>
          match matchLit ("return e;".data) r4 with
          | some [] => true
          | _ => false
        | _ => false
      | _ => false
    | _ => false
  | none => false

/-- The arrow body the renderer actually emits for an `Error` value. -/
def emittedErrBody (name stack : String) : List Char :=
  ("e.name=".data) ++ quoteChars name.data ++ (";e.stack=".data) ++
    quoteChars stack.data ++ ("return e;".data)

/-- The same body with the missing separator restored. -/
def fixedErrBody (name stack : String) : List Char :=
  ("e.name=".data) ++ quoteChars name.data ++ (";e.stack=".data) ++
    quoteChars stack.data ++ (";return e;".data)

/-! ### Heap model: object identity, `_cyclic` and `_exists`

The claims about cycle detection and about the visited-set are about
object *identity*, which tree values cannot express.  Containers are
therefore modelled as numbered nodes of an explicit store; an `SVal` is a
leaf (carrying its rendered text — leaves are dispatched before `_cyclic`
in the source and never touch `_exists`) or a reference to a node.

`sstringify` mirrors `_stringify`'s container path: `_cyclic` (membership
test in `_exists`, then insertion) before descending, and every recursive
descent goes through `sstringify` itself, threading the same `_exists`.
Fuel models the finite call stack: `.stackOverflow` is the stack-depth
failure the claims distinguish from the cyclic-value `TypeError`. -/

inductive SVal where
  | atom (s : String)
  | ref (i : Nat)
deriving Repr

inductive SNode where
  | arr (elems : List SVal)
  | obj (fields : List (String × SVal))
  | map (entries : List (SVal × SVal))
  | set (elems : List SVal)
deriving Repr

def Store := List SNode

inductive SErr where
  | cyclic
  | stackOverflow
  | badRef
deriving Repr, DecidableEq

/-- `_cyclic(value)`: throw `TypeError('cyclic object value')` when the
identity is already in `_exists`, otherwise add it. -/
def cyclicCheck (i : Nat) (ex : List Nat) : Except SErr (List Nat) :=
  if ex.contains i then .error .cyclic else .ok (i :: ex)

mutual

def sstringify : Nat → Store → SVal → List Nat → Except SErr String × List Nat
  | 0, _, _, ex => (.error .stackOverflow, ex)
  | _ + 1, _, .atom s, ex => (.ok s, ex)
  | n + 1, st, .ref i, ex =>
    match cyclicCheck i ex with
    | .error e => (.error e, ex)
    | .ok ex1 =>
      match st.get? i with
      | none => (.error .badRef, ex1)
      | some (.arr es) =>
        match smany n st es ex1 with
        | (.ok items, ex2) => (.ok ("[" ++ String.intercalate ", " items ++ "]"), ex2)
        | (.error e, ex2) => (.error e, ex2)
      | some (.obj fs) =>
        match smany n st (fs.map Prod.snd) ex1 with
        | (.ok vals, ex2) =>
          (.ok (⟨[lbraceC]⟩ ++
            String.intercalate ", " ((fs.map Prod.fst).zipWith (fun k v => k ++ ": " ++ v) vals) ++
            ⟨[rbraceC]⟩), ex2)
        | (.error e, ex2) => (.error e, ex2)
      | some (.map ps) =>
        match smany n st (ps.flatMap (fun p => [p.1, p.2])) ex1 with
        | (.ok parts, ex2) => (.ok ("new Map([" ++ String.intercalate ", " parts ++ "])"), ex2)
        | (.error e, ex2) => (.error e, ex2)
      | some (.set es) =>
        match smany n st es ex1 with
        | (.ok items, ex2) => (.ok ("new Set([" ++ String.intercalate ", " items ++ "])"), ex2)
        | (.error e, ex2) => (.error e, ex2)

def smany : Nat → Store → List SVal → List Nat → Except SErr (List String) × List Nat
  | 0, _, _, ex => (.error .stackOverflow, ex)
  | _ + 1, _, [], ex => (.ok [], ex)
  | n + 1, st, v :: vs, ex =>
    match sstringify n st v ex with
    | (.ok s, ex1) =>
      match smany n st vs ex1 with
      | (.ok ss, ex2) => (.ok (s :: ss), ex2)
      | (.error e, ex2) => (.error e, ex2)
    | (.error e, ex1) => (.error e, ex1)

end

/-- Model of the public `stringify` (part_000 lines 197-201):

```
stringify(value) {
  const result = this._stringify(value);
  this._exists.clear();
  return result;
}
```

`this._exists.clear()` is a plain statement after the call, so when
`_stringify` throws, the clear is skipped and the instance keeps the
entries accumulated so far; on the success path the set is cleared. -/
def stringifyS (fuel : Nat) (st : Store) (v : SVal) : Except SErr String × List Nat :=
  match sstringify fuel st v [] with
  | (.ok s, _) => (.ok s, [])
  | (.error e, ex) => (.error e, ex)

/-- A record whose property `self` is the record itself. -/
def selfObjStore : Store := [.obj [("self", .ref 0)]]

/-- An array containing itself as an element. -/
def selfArrStore : Store := [.arr [.ref 0]]

/-- Two records referencing each other. -/
def twoCycleStore : Store := [.obj [("ref", .ref 1)], .obj [("ref", .ref 0)]]

/-- `\x7ba: shared, b: shared\x7d` — the same node reachable at two sibling
positions, a DAG rather than a cycle; the shared node is a one-field
record with an arbitrary leaf payload. -/
def sharedStore (p : String) : Store :=
  [.obj [("a", .ref 1), ("b", .ref 1)], .obj [("value", .atom p)]]

/-! ### Sizes and the round-trip well-formedness predicate -/

mutual

def sizeV : JsVal → Nat
  | .map ps => 1 + sizeP ps
  | .set es => 1 + sizeL es
  | .arr es => 1 + sizeL es
  | .obj fs => 1 + sizeF fs
  | _ => 1

def sizeL : List JsVal → Nat
  | [] => 0
  | v :: vs => 1 + sizeV v + sizeL vs

def sizeP : List (JsVal × JsVal) → Nat
  | [] => 0
  | (k, v) :: ps => 1 + sizeV k + sizeV v + sizeP ps

def sizeF : List (JsKey × JsVal) → Nat
  | [] => 0
  | (_, v) :: fs => 1 + sizeV v + sizeF fs

end

/-- A string that the renderer may emit as a bare record key and the
engine will read back as the same key: a nonempty identifier. -/
def isIdentName (s : String) : Bool :=
  match s.data with
  | [] => false
  | c :: cs => isIdentStartC c && cs.all isIdentC

def symOk : JsSym → Bool
  | .loc _ => true
  | .glob k => !k.data.isEmpty

def keyOk : JsKey → Bool
  | .str s => isIdentName s
  | .sym s => symOk s

mutual

/-- Round-trippable values: the supported kinds minus callables, error
objects and big integers, with the record-key/symbol-key restrictions the
counterexamples force, and the constraints under which the value denotes
an actual JavaScript runtime value whose rendering is read back exactly
(finite numbers and timestamps are integer-valued doubles that print as
plain decimal digits; a regex literal's source is nonempty and contains
no unescaped `/` and no line terminator; flags are letters). -/
def rtOk : JsVal → Bool
  | .nullV | .undef | .str _ | .bool _ => true
  | .num .nan | .num .inf | .num .ninf => true
  | .num (.fin n) => roundInt n = n && n.natAbs < 10 ^ 21
  | .bigint _ => false
  | .sym s => symOk s
  | .date ms => ms.natAbs ≤ 8640000000000000
  | .regexp src flags =>
    !src.data.isEmpty && src.data.all (fun c => !(c = '/') && !(c = '\n')) &&
      flags.data.all isAlphaC
  | .error _ _ _ => false
  | .map ps => rtOkP ps
  | .set es => rtOkL es
  | .arr es => rtOkL es
  | .obj fs => rtOkF fs

def rtOkL : List JsVal → Bool
  | [] => true
  | v :: vs => rtOk v && rtOkL vs

def rtOkP : List (JsVal × JsVal) → Bool
  | [] => true
  | (k, v) :: ps => rtOk k && rtOk v && rtOkP ps

def rtOkF : List (JsKey × JsVal) → Bool
  | [] => true
  | (k, v) :: fs => keyOk k && rtOk v && rtOkF fs

end

/-- The text that may legally follow a rendered expression so that the
evaluator neither consumes past the boundary nor mis-reads the tail: empty,
or starting with a character that extends no identifier, number, keyword or
regex-flag token (and is not `.`). -/
def stopOk : List Char → Prop
  | [] => True
  | c :: _ => isIdentC c = false ∧ c ≠ '.'

/-- Weaker boundary used for identifier munching only. -/
def headNotIdent : List Char → Prop
  | [] => True
  | c :: _ => isIdentC c = false

instance : ∀ cs, Decidable (stopOk cs) := fun cs => by
  unfold stopOk; cases cs <;> infer_instance

instance : ∀ cs, Decidable (headNotIdent cs) := fun cs => by
  unfold headNotIdent; cases cs <;> infer_instance

/-- Facts about a character that can start a rendered value. -/
def GoodHead (c : Char) : Prop :=
  isWsC c = false ∧ c ≠ 'e' ∧ c ≠ 'm' ∧ c ≠ ']' ∧ c ≠ rbraceC ∧ c ≠ ','

/-! ## Character-class facts -/

theorem isIdentC_eq_true_iff (c : Char) :
    isIdentC c = true ↔ (isAlphaC c = true ∨ isDigitC c = true ∨ c = '_' ∨ c = '$') := by
  simp only [isIdentC, Bool.or_eq_true, decide_eq_true_eq]
  tauto

theorem isIdentC_of_isDigitC (c : Char) (h : isDigitC c = true) : isIdentC c = true := by
  rw [isIdentC_eq_true_iff]; exact Or.inr (Or.inl h)

theorem isIdentC_of_isAlphaC (c : Char) (h : isAlphaC c = true) : isIdentC c = true := by
  rw [isIdentC_eq_true_iff]; exact Or.inl h

theorem isDigitC_toNat (c : Char) (h : isDigitC c = true) :
    48 ≤ c.toNat ∧ c.toNat ≤ 57 := by
  simpa [isDigitC, Bool.and_eq_true, decide_eq_true_eq] using h

theorem ne_of_toNat_ne (c d : Char) (h : c.toNat ≠ d.toNat) : c ≠ d :=
  fun e => h (by rw [e])

theorem headNotIdent_of_stopOk (rest : List Char) (h : stopOk rest) : headNotIdent rest := by
  cases rest with
  | nil => trivial
  | cons c t => exact h.1

theorem stopOk_cons (c : Char) (t : List Char) (h1 : isIdentC c = false) (h2 : c ≠ '.') :
    stopOk (c :: t) := ⟨h1, h2⟩

theorem headNotIdent_cons (c : Char) (t : List Char) (h : isIdentC c = false) :
    headNotIdent (c :: t) := h

/-! ## Digit rendering and reading -/

theorem digitChar_toNat : ∀ m, m < 10 → (digitChar m).toNat = 48 + m := by decide

theorem isDigitC_digitChar : ∀ m, m < 10 → isDigitC (digitChar m) = true := by decide

theorem natToChars_ne_nil (n : Nat) : natToChars n ≠ [] := by
  rw [natToChars]; split <;> simp

theorem natToChars_digits (n : Nat) : ∀ c ∈ natToChars n, isDigitC c = true := by
  induction n using Nat.strong_induction_on with
  | _ n ih =>
    rw [natToChars]
    split
    · intro c hc
      simp only [List.mem_singleton] at hc
      subst hc
      exact isDigitC_digitChar n (by omega)
    · intro c hc
      rw [List.mem_append] at hc
      rcases hc with h | h
      · exact ih (n / 10) (Nat.div_lt_self (by omega) (by omega)) c h
      · simp only [List.mem_singleton] at h
        subst h
        exact isDigitC_digitChar (n % 10) (Nat.mod_lt n (by omega))

theorem natToChars_cons (n : Nat) :
    ∃ c t, natToChars n = c :: t ∧ isDigitC c = true := by
  cases h : natToChars n with
  | nil => exact absurd h (natToChars_ne_nil n)
  | cons c t =>
    exact ⟨c, t, rfl, natToChars_digits n c (by rw [h]; exact List.mem_cons_self c t)⟩

theorem readDigits_append (n : Nat) : ∀ acc rest,
    readDigits acc (natToChars n ++ rest) =
      readDigits (acc * 10 ^ (natToChars n).length + n) rest := by
  induction n using Nat.strong_induction_on with
  | _ n ih =>
    intro acc rest
    by_cases h : n < 10
    · rw [natToChars, if_pos h]
      simp only [List.singleton_append, List.length_singleton, pow_one]
      rw [readDigits, if_pos (isDigitC_digitChar n h), digitChar_toNat n h]
      congr 1
      omega
    · rw [natToChars, if_neg h]
      rw [List.append_assoc, ih (n / 10) (Nat.div_lt_self (by omega) (by omega))]
      simp only [List.singleton_append]
      rw [readDigits, if_pos (isDigitC_digitChar (n % 10) (Nat.mod_lt n (by omega))),
        digitChar_toNat (n % 10) (Nat.mod_lt n (by omega))]
      rw [List.length_append, List.length_singleton]
      congr 1
      have hpow : 10 ^ ((natToChars (n / 10)).length + 1) =
          10 ^ (natToChars (n / 10)).length * 10 := pow_succ 10 _
      have hdm : 10 * (n / 10) + n % 10 = n := Nat.div_add_mod n 10
      rw [hpow]
      ring_nf
      omega

theorem readDigits_stop (acc : Nat) (rest : List Char) (h : headNotIdent rest) :
    readDigits acc rest = (acc, rest) := by
  cases rest with
  | nil => rfl
  | cons c t =>
    have hd : isDigitC c = false := by
      cases hdc : isDigitC c with
      | false => rfl
      | true =>
        have h' : isIdentC c = false := h
        rw [isIdentC_of_isDigitC c hdc] at h'
        exact absurd h' (by simp)
    rw [readDigits, if_neg (by rw [hd]; simp)]

theorem readDigits_natToChars (n : Nat) (rest : List Char) (h : headNotIdent rest) :
    readDigits 0 (natToChars n ++ rest) = (n, rest) := by
  rw [readDigits_append, readDigits_stop _ _ h]
  simp

/-! ## Integer literals -/

theorem roundNat_small (m : Nat) (h : m ≤ 2 ^ 53) : roundNat m = m := by
  rw [roundNat, if_pos h]

theorem roundInt_small (i : Int) (h : i.natAbs ≤ 2 ^ 53) : roundInt i = i := by
  rw [roundInt]
  split
  · rw [roundNat_small _ h]; omega
  · rw [roundNat_small _ h]; omega

theorem pIntLit_nat (m : Nat) (rest : List Char) (h : stopOk rest) :
    pIntLit (natToChars m ++ rest) = some (roundInt (m : Int), rest) := by
  obtain ⟨c, t, hct, hd⟩ := natToChars_cons m
  have hrd : readDigits 0 (c :: (t ++ rest)) = (m, rest) := by
    rw [← List.cons_append, ← hct]
    exact readDigits_natToChars m rest (headNotIdent_of_stopOk rest h)
  have hnm : c ≠ '-' := by
    refine ne_of_toNat_ne c '-' ?_
    have := isDigitC_toNat c hd
    intro he
    rw [show ('-').toNat = 45 from rfl] at he
    omega
  rw [hct, List.cons_append, pIntLit.eq_def]
  simp only []
  rw [if_neg hnm, if_pos hd, hrd]

theorem pIntLit_int (i : Int) (rest : List Char) (h : stopOk rest) :
    pIntLit (intChars i ++ rest) = some (roundInt i, rest) := by
  by_cases hneg : i < 0
  · rw [intChars, if_pos hneg, List.cons_append]
    obtain ⟨c, t, hct, hd⟩ := natToChars_cons i.natAbs
    have hrd : readDigits 0 (natToChars i.natAbs ++ rest) = (i.natAbs, rest) :=
      readDigits_natToChars _ rest (headNotIdent_of_stopOk rest h)
    rw [hct, List.cons_append] at hrd ⊢
    have hval : -((i.natAbs : Nat) : Int) = i := by omega
    simp [pIntLit, hd, hrd, hval]
    rw [abs_of_neg hneg]
    simp
  · rw [intChars, if_neg hneg, pIntLit_nat _ _ h]
    have hval : ((i.natAbs : Nat) : Int) = i := by omega
    rw [hval]

/-! ## String literal escaping round trip -/

theorem hexVal_hexDigitChar : ∀ m, m < 16 → hexVal (hexDigitChar m) = some m := by decide

theorem pStrBody_cons_ord (c : Char) (h1 : c ≠ '"') (h2 : c ≠ '\\') (t : List Char) :
    pStrBody (c :: t) = (pStrBody t).map (fun p => (c :: p.1, p.2)) := by
  rw [pStrBody, if_neg h1, if_neg h2]

theorem pStrBody_escChar (c : Char) (t : List Char) :
    pStrBody (escChar c ++ t) = (pStrBody t).map (fun p => (c :: p.1, p.2)) := by
  rw [escChar]
  by_cases hq : c = '"'
  · subst hq; rw [if_pos rfl]; simp [pStrBody, pEscTail, escDecode]
  · rw [if_neg hq]
    by_cases hb2 : c = '\\'
    · subst hb2; rw [if_pos rfl]; simp [pStrBody, pEscTail, escDecode]
    · rw [if_neg hb2]
      by_cases h8 : c = Char.ofNat 8
      · subst h8; rw [if_pos rfl]; simp [pStrBody, pEscTail, escDecode]
      · rw [if_neg h8]
        by_cases h9 : c = Char.ofNat 9
        · subst h9; rw [if_pos rfl]; simp [pStrBody, pEscTail, escDecode]
        · rw [if_neg h9]
          by_cases h10 : c = Char.ofNat 10
          · subst h10; rw [if_pos rfl]; simp [pStrBody, pEscTail, escDecode]
          · rw [if_neg h10]
            by_cases h12 : c = Char.ofNat 12
            · subst h12; rw [if_pos rfl]; simp [pStrBody, pEscTail, escDecode]
            · rw [if_neg h12]
              by_cases h13 : c = Char.ofNat 13
              · subst h13; rw [if_pos rfl]; simp [pStrBody, pEscTail, escDecode]
              · rw [if_neg h13]
                by_cases hctl : c.toNat < 32
                · rw [if_pos hctl]
                  have hx1 : hexVal (hexDigitChar (c.toNat / 16)) = some (c.toNat / 16) :=
                    hexVal_hexDigitChar _ (by omega)
                  have hx2 : hexVal (hexDigitChar (c.toNat % 16)) = some (c.toNat % 16) :=
                    hexVal_hexDigitChar _ (by omega)
                  have harith : ((0 * 16 + 0) * 16 + c.toNat / 16) * 16 + c.toNat % 16 =
                      c.toNat := by omega
                  simp only [List.cons_append, List.nil_append]
                  rw [pStrBody, if_neg (by decide), if_pos rfl, pEscTail, if_pos rfl]
                  rw [pHex4, show hexVal '0' = some 0 from rfl, hx1, hx2]
                  simp only [harith, Char.ofNat_toNat]
                · rw [if_neg hctl]
                  rw [show ([c] ++ t) = c :: t from rfl]
                  exact pStrBody_cons_ord c hq hb2 t

theorem escList_cons (c : Char) (s : List Char) :
    escList (c :: s) = escChar c ++ escList s := rfl

theorem pStrBody_escList (s : List Char) (t : List Char) :
    pStrBody (escList s ++ '"' :: t) = some (s, t) := by
  induction s with
  | nil =>
    rw [show escList [] = [] from rfl, List.nil_append, pStrBody, if_pos rfl]
  | cons c s' ih =>
    rw [escList_cons, List.append_assoc, pStrBody_escChar, ih]
    rfl

theorem quoteChars_append (d : List Char) (rest : List Char) :
    quoteChars d ++ rest = '"' :: (escList d ++ ('"' :: rest)) := by
  simp [quoteChars]

/-! ## Identifier, alpha and regex munching -/

theorem munchIdent_append (w rest : List Char) (hw : ∀ c ∈ w, isIdentC c = true)
    (hr : headNotIdent rest) : munchIdent (w ++ rest) = (w, rest) := by
  induction w with
  | nil =>
    cases rest with
    | nil => rfl
    | cons c t =>
      have h' : isIdentC c = false := hr
      simp [munchIdent, h']
  | cons a w' ih =>
    have ha : isIdentC a = true := hw a (List.mem_cons_self a w')
    rw [List.cons_append, munchIdent, if_pos ha,
      ih (fun c hc => hw c (List.mem_cons_of_mem a hc))]

theorem munchAlpha_append (w rest : List Char) (hw : ∀ c ∈ w, isAlphaC c = true)
    (hr : headNotIdent rest) : munchAlpha (w ++ rest) = (w, rest) := by
  induction w with
  | nil =>
    cases rest with
    | nil => rfl
    | cons c t =>
      have h' : isIdentC c = false := hr
      have ha : isAlphaC c = false := by
        cases hac : isAlphaC c with
        | false => rfl
        | true => rw [isIdentC_of_isAlphaC c hac] at h'; exact absurd h' (by simp)
      simp [munchAlpha, ha]
  | cons a w' ih =>
    have ha : isAlphaC a = true := hw a (List.mem_cons_self a w')
    rw [List.cons_append, munchAlpha, if_pos ha,
      ih (fun c hc => hw c (List.mem_cons_of_mem a hc))]

theorem munchRegex_append (src rest : List Char)
    (h : ∀ c ∈ src, (!(c = '/') && !(c = '\n')) = true) :
    munchRegex (src ++ '/' :: rest) = some (src, rest) := by
  induction src with
  | nil => simp [munchRegex]
  | cons a s' ih =>
    have ha := h a (List.mem_cons_self a s')
    have ha1 : a ≠ '/' := by
      intro he; rw [he] at ha; simp at ha
    have ha2 : a ≠ '\n' := by
      intro he; rw [he] at ha; simp at ha
    rw [List.cons_append, munchRegex]
    simp only [if_neg ha1, if_neg ha2]
    rw [ih (fun c hc => h c (List.mem_cons_of_mem a hc))]
    rfl

/-! ## matchLit facts -/

theorem matchLit_self (p : List Char) : ∀ t, matchLit p (p ++ t) = some t := by
  induction p with
  | nil => intro t; simp [matchLit]
  | cons a ps ih => intro t; simp [matchLit, ih]

theorem matchLit_head_ne (a c : Char) (p t : List Char) (h : a ≠ c) :
    matchLit (a :: p) (c :: t) = none := by
  rw [matchLit, if_neg h]

theorem matchLit_head?_ne (a : Char) (p cs : List Char) (h : cs.head? ≠ some a) :
    matchLit (a :: p) cs = none := by
  cases cs with
  | nil => rfl
  | cons c t =>
    refine matchLit_head_ne a c p t ?_
    intro he
    exact h (by simp [he])

/-! ## Head characterization of rendered text -/

theorem symbolChars_head (s : JsSym) : ∃ t, symbolChars s = 'S' :: t := by
  cases s with
  | loc d =>
    cases d with
    | none => exact ⟨_, rfl⟩
    | some dd => exact ⟨_, rfl⟩
  | glob k =>
    by_cases hk : k.data = []
    · simp [symbolChars, keyFor, hk, symbolChars.localSymbolChars, symDescr]
    · simp [symbolChars, keyFor, hk, symbolChars.localSymbolChars, symDescr]

theorem goodHead_of_toNat (c : Char)
    (h : c.toNat ≠ 32 ∧ c.toNat ≠ 9 ∧ c.toNat ≠ 10 ∧ c.toNat ≠ 13 ∧ c.toNat ≠ 12 ∧
      c.toNat ≠ 11 ∧ c.toNat ≠ 101 ∧ c.toNat ≠ 109 ∧ c.toNat ≠ 93 ∧ c.toNat ≠ 125 ∧
      c.toNat ≠ 44) : GoodHead c := by
  obtain ⟨h1, h2, h3, h4, h5, h6, h7, h8, h9, h10, h11⟩ := h
  refine ⟨?_, ?_, ?_, ?_, ?_, ?_⟩
  · have w1 : c ≠ ' ' := ne_of_toNat_ne _ _ (by rw [show (' ').toNat = 32 from rfl]; exact h1)
    have w2 : c ≠ '\t' := ne_of_toNat_ne _ _ (by rw [show ('\t').toNat = 9 from rfl]; exact h2)
    have w3 : c ≠ '\n' := ne_of_toNat_ne _ _ (by rw [show ('\n').toNat = 10 from rfl]; exact h3)
    have w4 : c ≠ '\r' := ne_of_toNat_ne _ _ (by rw [show ('\r').toNat = 13 from rfl]; exact h4)
    have w5 : c ≠ Char.ofNat 12 :=
      ne_of_toNat_ne _ _ (by rw [show (Char.ofNat 12).toNat = 12 from rfl]; exact h5)
    have w6 : c ≠ Char.ofNat 11 :=
      ne_of_toNat_ne _ _ (by rw [show (Char.ofNat 11).toNat = 11 from rfl]; exact h6)
    simp [isWsC, w1, w2, w3, w4, w5, w6]
  · exact ne_of_toNat_ne _ _ (by rw [show ('e').toNat = 101 from rfl]; exact h7)
  · exact ne_of_toNat_ne _ _ (by rw [show ('m').toNat = 109 from rfl]; exact h8)
  · exact ne_of_toNat_ne _ _ (by rw [show (']').toNat = 93 from rfl]; exact h9)
  · exact ne_of_toNat_ne _ _ (by rw [show rbraceC.toNat = 125 from rfl]; exact h10)
  · exact ne_of_toNat_ne _ _ (by rw [show (',').toNat = 44 from rfl]; exact h11)

theorem goodHead_digit (c : Char) (h : isDigitC c = true) : GoodHead c := by
  obtain ⟨h1, h2⟩ := isDigitC_toNat c h
  exact goodHead_of_toNat c (by omega)

theorem intChars_head (i : Int) :
    ∃ c t, intChars i = c :: t ∧ (c = '-' ∨ isDigitC c = true) := by
  rw [intChars]
  split
  · exact ⟨'-', _, rfl, Or.inl rfl⟩
  · obtain ⟨c, t, h, hd⟩ := natToChars_cons i.natAbs
    exact ⟨c, t, h, Or.inr hd⟩

theorem renderV_head_spec (cur : List Char) (v : JsVal) :
    ∃ c t, renderV [] cur v = c :: t ∧ GoodHead c := by
  cases v with
  | nullV => exact ⟨'n', _, rfl, goodHead_of_toNat _ (by decide)⟩
  | undef => exact ⟨'u', _, rfl, goodHead_of_toNat _ (by decide)⟩
  | str s => exact ⟨'"', _, rfl, goodHead_of_toNat _ (by decide)⟩
  | num n =>
    cases n with
    | nan => exact ⟨'N', _, rfl, goodHead_of_toNat _ (by decide)⟩
    | inf => exact ⟨'I', _, rfl, goodHead_of_toNat _ (by decide)⟩
    | ninf => exact ⟨'-', _, rfl, goodHead_of_toNat _ (by decide)⟩
    | fin i =>
      obtain ⟨c, t, hct, hc⟩ := intChars_head i
      refine ⟨c, t, by simp [renderV, numChars, hct], ?_⟩
      rcases hc with hc | hc
      · subst hc; exact goodHead_of_toNat _ (by decide)
      · exact goodHead_digit c hc
  | bool b =>
    cases b with
    | true => exact ⟨'t', _, rfl, goodHead_of_toNat _ (by decide)⟩
    | false => exact ⟨'f', _, rfl, goodHead_of_toNat _ (by decide)⟩
  | bigint i =>
    obtain ⟨c, t, hct, hc⟩ := intChars_head i
    refine ⟨c, t, by simp [renderV, hct], ?_⟩
    rcases hc with hc | hc
    · subst hc; exact goodHead_of_toNat _ (by decide)
    · exact goodHead_digit c hc
  | sym s =>
    obtain ⟨t, ht⟩ := symbolChars_head s
    exact ⟨'S', t, by simp [renderV, ht], goodHead_of_toNat _ (by decide)⟩
  | date ms => exact ⟨'n', _, rfl, goodHead_of_toNat _ (by decide)⟩
  | regexp src flags => exact ⟨'/', _, rfl, goodHead_of_toNat _ (by decide)⟩
  | error name msg stack => exact ⟨'(', _, rfl, goodHead_of_toNat _ (by decide)⟩
  | map entries => exact ⟨'n', _, rfl, goodHead_of_toNat _ (by decide)⟩
  | set elems => exact ⟨'n', _, rfl, goodHead_of_toNat _ (by decide)⟩
  | arr elems =>
    by_cases he : elems.isEmpty
    · refine ⟨'[', [']'], ?_, goodHead_of_toNat _ (by decide)⟩
      have hr : renderV [] cur (JsVal.arr elems) = ("[]".data) := by simp [renderV, he]
      rw [hr]
    · refine ⟨'[', joinComma (renderList [] (cur ++ []) elems) ++ [']'], ?_,
        goodHead_of_toNat _ (by decide)⟩
      simp [renderV, he]
  | obj fields =>
    by_cases he : fields.isEmpty
    · refine ⟨lbraceC, [rbraceC], ?_, goodHead_of_toNat _ (by decide)⟩
      have hr : renderV [] cur (JsVal.obj fields) = [lbraceC, rbraceC] := by
        simp [renderV, he]
      rw [hr]
    · refine ⟨lbraceC, joinComma (renderFields [] (cur ++ []) fields) ++ [rbraceC], ?_,
        goodHead_of_toNat _ (by decide)⟩
      simp [renderV, he]

/-! ## Literal expansions (all `rfl`), used to keep goals in cons-normal form -/

theorem dataNull : ("null".data) = ['n', 'u', 'l', 'l'] := rfl

theorem dataUndefined : ("undefined".data) = ['u', 'n', 'd', 'e', 'f', 'i', 'n', 'e', 'd'] := rfl

theorem dataTrue : ("true".data) = ['t', 'r', 'u', 'e'] := rfl

theorem dataFalse : ("false".data) = ['f', 'a', 'l', 's', 'e'] := rfl

theorem dataNaN : ("NaN".data) = ['N', 'a', 'N'] := rfl

theorem dataInfinity : ("Infinity".data) = ['I', 'n', 'f', 'i', 'n', 'i', 't', 'y'] := rfl

theorem dataNInfinity : ("-Infinity".data) = '-' :: ("Infinity".data) := rfl

theorem dataSymbolEmpty : ("Symbol()".data) = ['S', 'y', 'm', 'b', 'o', 'l', '(', ')'] := rfl

theorem dataSymbolOpen : ("Symbol(".data) = ['S', 'y', 'm', 'b', 'o', 'l', '('] := rfl

theorem dataSymbolFor :
    ("Symbol.for(".data) = ['S', 'y', 'm', 'b', 'o', 'l', '.', 'f', 'o', 'r', '('] := rfl

theorem dataSymbolKw : ("Symbol".data) = ['S', 'y', 'm', 'b', 'o', 'l'] := rfl

theorem dataForQuote : (".for(\"".data) = ['.', 'f', 'o', 'r', '(', '"'] := rfl

theorem dataParens : ("()".data) = ['(', ')'] := rfl

theorem dataParenQuote : ("(\"".data) = ['(', '"'] := rfl

theorem dataNewDate : ("new Date(".data) = ['n', 'e', 'w', ' ', 'D', 'a', 't', 'e', '('] := rfl

theorem dataNewMap : ("new Map([".data) = ['n', 'e', 'w', ' ', 'M', 'a', 'p', '(', '['] := rfl

theorem dataNewSet : ("new Set([".data) = ['n', 'e', 'w', ' ', 'S', 'e', 't', '(', '['] := rfl

theorem dataNewKw : ("new".data) = ['n', 'e', 'w'] := rfl

theorem dataDateKw : ("Date".data) = ['D', 'a', 't', 'e'] := rfl

theorem dataMapKw : ("Map".data) = ['M', 'a', 'p'] := rfl

theorem dataSetKw : ("Set".data) = ['S', 'e', 't'] := rfl

theorem dataParBrk : ("([".data) = ['(', '['] := rfl

theorem dataParBrkClose : ("([])".data) = ['(', '[', ']', ')'] := rfl

theorem dataBrkPar : ("])".data) = [']', ')'] := rfl

theorem dataBrks : ("[]".data) = ['[', ']'] := rfl

theorem dataCommaSp : (", ".data) = [',', ' '] := rfl

theorem dataColonSp : (": ".data) = [':', ' '] := rfl

theorem dataBrkColonSp : ("]: ".data) = [']', ':', ' '] := rfl

/-! ## Leaf productions of the evaluator on rendered text -/

theorem pExpr_null (m : Nat) (rest : List Char) (h : stopOk rest) :
    pExpr (m + 1) (("null".data) ++ rest) = some (.nullV, rest) := by
  have hm : munchIdent ('n' :: 'u' :: 'l' :: 'l' :: rest) = (("null".data), rest) :=
    munchIdent_append ("null".data) rest (by decide) (headNotIdent_of_stopOk rest h)
  show pExpr (m + 1) ('n' :: 'u' :: 'l' :: 'l' :: rest) = some (.nullV, rest)
  simp [pExpr, hm, isDigitC, isIdentStartC, isAlphaC, lbraceC]

theorem pExpr_undef (m : Nat) (rest : List Char) (h : stopOk rest) :
    pExpr (m + 1) (("undefined".data) ++ rest) = some (.undef, rest) := by
  have hm : munchIdent ('u' :: 'n' :: 'd' :: 'e' :: 'f' :: 'i' :: 'n' :: 'e' :: 'd' :: rest) =
      (("undefined".data), rest) :=
    munchIdent_append ("undefined".data) rest (by decide) (headNotIdent_of_stopOk rest h)
  show pExpr (m + 1) ('u' :: 'n' :: 'd' :: 'e' :: 'f' :: 'i' :: 'n' :: 'e' :: 'd' :: rest) =
    some (.undef, rest)
  simp [pExpr, hm, isDigitC, isIdentStartC, isAlphaC, lbraceC]

theorem pExpr_true (m : Nat) (rest : List Char) (h : stopOk rest) :
    pExpr (m + 1) (("true".data) ++ rest) = some (.bool true, rest) := by
  have hm : munchIdent ('t' :: 'r' :: 'u' :: 'e' :: rest) = (("true".data), rest) :=
    munchIdent_append ("true".data) rest (by decide) (headNotIdent_of_stopOk rest h)
  show pExpr (m + 1) ('t' :: 'r' :: 'u' :: 'e' :: rest) = some (.bool true, rest)
  simp [pExpr, hm, isDigitC, isIdentStartC, isAlphaC, lbraceC]

theorem pExpr_false (m : Nat) (rest : List Char) (h : stopOk rest) :
    pExpr (m + 1) (("false".data) ++ rest) = some (.bool false, rest) := by
  have hm : munchIdent ('f' :: 'a' :: 'l' :: 's' :: 'e' :: rest) = (("false".data), rest) :=
    munchIdent_append ("false".data) rest (by decide) (headNotIdent_of_stopOk rest h)
  show pExpr (m + 1) ('f' :: 'a' :: 'l' :: 's' :: 'e' :: rest) = some (.bool false, rest)
  simp [pExpr, hm, isDigitC, isIdentStartC, isAlphaC, lbraceC]

theorem pExpr_nan (m : Nat) (rest : List Char) (h : stopOk rest) :
    pExpr (m + 1) (("NaN".data) ++ rest) = some (.num .nan, rest) := by
  have hm : munchIdent ('N' :: 'a' :: 'N' :: rest) = (("NaN".data), rest) :=
    munchIdent_append ("NaN".data) rest (by decide) (headNotIdent_of_stopOk rest h)
  show pExpr (m + 1) ('N' :: 'a' :: 'N' :: rest) = some (.num .nan, rest)
  simp [pExpr, hm, isDigitC, isIdentStartC, isAlphaC, lbraceC]

theorem pExpr_inf (m : Nat) (rest : List Char) (h : stopOk rest) :
    pExpr (m + 1) (("Infinity".data) ++ rest) = some (.num .inf, rest) := by
  have hm : munchIdent ('I' :: 'n' :: 'f' :: 'i' :: 'n' :: 'i' :: 't' :: 'y' :: rest) =
      (("Infinity".data), rest) :=
    munchIdent_append ("Infinity".data) rest (by decide) (headNotIdent_of_stopOk rest h)
  show pExpr (m + 1) ('I' :: 'n' :: 'f' :: 'i' :: 'n' :: 'i' :: 't' :: 'y' :: rest) =
    some (.num .inf, rest)
  simp [pExpr, hm, isDigitC, isIdentStartC, isAlphaC, lbraceC]

theorem pExpr_ninf (m : Nat) (rest : List Char) :
    pExpr (m + 1) (("-Infinity".data) ++ rest) = some (.num .ninf, rest) := by
  have hml : matchLit ['I', 'n', 'f', 'i', 'n', 'i', 't', 'y']
      ('I' :: 'n' :: 'f' :: 'i' :: 'n' :: 'i' :: 't' :: 'y' :: rest) = some rest :=
    matchLit_self ("Infinity".data) rest
  show pExpr (m + 1) ('-' :: 'I' :: 'n' :: 'f' :: 'i' :: 'n' :: 'i' :: 't' :: 'y' :: rest) =
    some (.num .ninf, rest)
  simp [pExpr, hml, isDigitC, isIdentStartC, isAlphaC, lbraceC]

theorem pExpr_str (m : Nat) (s : String) (rest : List Char) :
    pExpr (m + 1) (quoteChars s.data ++ rest) = some (.str s, rest) := by
  have hb : pStrBody (escList s.data ++ ('"' :: rest)) = some (s.data, rest) :=
    pStrBody_escList s.data rest
  have hin : quoteChars s.data ++ rest = '"' :: (escList s.data ++ ('"' :: rest)) := by
    simp [quoteChars]
  rw [hin]
  simp [pExpr, hb]

theorem pExpr_intChars (m : Nat) (i : Int) (rest : List Char) (h : stopOk rest) :
    pExpr (m + 1) (intChars i ++ rest) = some (.num (.fin (roundInt i)), rest) := by
  have hP : pIntLit (intChars i ++ rest) = some (roundInt i, rest) := pIntLit_int i rest h
  by_cases hneg : i < 0
  · have hic : intChars i = '-' :: natToChars i.natAbs := by rw [intChars, if_pos hneg]
    obtain ⟨c, t, hct, hd⟩ := natToChars_cons i.natAbs
    have hci := isDigitC_toNat c hd
    have hcI : c ≠ 'I' := ne_of_toNat_ne _ _ (by rw [show ('I').toNat = 73 from rfl]; omega)
    have hml : matchLit (("Infinity".data)) (c :: (t ++ rest)) = none := by
      rw [dataInfinity]
      exact matchLit_head_ne _ _ _ _ (fun he => hcI he.symm)
    rw [hic] at hP ⊢
    rw [hct] at hP ⊢
    rw [List.cons_append, List.cons_append] at hP ⊢
    simp [pExpr, hml, hP, isDigitC, isIdentStartC, isAlphaC, lbraceC]
  · have hic : intChars i = natToChars i.natAbs := by rw [intChars, if_neg hneg]
    obtain ⟨c, t, hct, hd⟩ := natToChars_cons i.natAbs
    have hci := isDigitC_toNat c hd
    have hq : c ≠ '"' := ne_of_toNat_ne _ _ (by rw [show ('"').toNat = 34 from rfl]; omega)
    have hsl : c ≠ '/' := ne_of_toNat_ne _ _ (by rw [show ('/').toNat = 47 from rfl]; omega)
    have hbr : c ≠ '[' := ne_of_toNat_ne _ _ (by rw [show ('[').toNat = 91 from rfl]; omega)
    have hlb : c ≠ lbraceC :=
      ne_of_toNat_ne _ _ (by rw [show lbraceC.toNat = 123 from rfl]; omega)
    have hmn : c ≠ '-' := ne_of_toNat_ne _ _ (by rw [show ('-').toNat = 45 from rfl]; omega)
    rw [hic] at hP ⊢
    rw [hct] at hP ⊢
    rw [List.cons_append] at hP ⊢
    simp [pExpr, hq, hsl, hbr, hlb, hmn, hd, hP]

theorem pExpr_regex (m : Nat) (src flags : String) (rest : List Char)
    (hsrc : src.data ≠ [])
    (hs : ∀ c ∈ src.data, (!(c = '/') && !(c = '\n')) = true)
    (hf : ∀ c ∈ flags.data, isAlphaC c = true)
    (h : stopOk rest) :
    pExpr (m + 1) (('/' :: src.data ++ '/' :: flags.data) ++ rest) =
      some (.regexp src flags, rest) := by
  have hmr : munchRegex (src.data ++ '/' :: (flags.data ++ rest)) =
      some (src.data, flags.data ++ rest) := munchRegex_append src.data _ hs
  have hma : munchAlpha (flags.data ++ rest) = (flags.data, rest) :=
    munchAlpha_append flags.data rest hf (headNotIdent_of_stopOk rest h)
  have hin : ('/' :: src.data ++ '/' :: flags.data) ++ rest =
      '/' :: (src.data ++ '/' :: (flags.data ++ rest)) := by simp
  rw [hin]
  simp [pExpr, hmr, hma, hsrc]

theorem pSymbolTail_glob (k : String) (rest : List Char) :
    pSymbolTail ('.' :: 'f' :: 'o' :: 'r' :: '(' :: '"' ::
      (escList k.data ++ ('"' :: (')' :: rest)))) = some (.glob k, rest) := by
  have hml : matchLit ['.', 'f', 'o', 'r', '(', '"']
      ('.' :: 'f' :: 'o' :: 'r' :: '(' :: '"' :: (escList k.data ++ ('"' :: (')' :: rest)))) =
      some (escList k.data ++ ('"' :: (')' :: rest))) :=
    matchLit_self (".for(\"".data) _
  have hb := pStrBody_escList k.data (')' :: rest)
  have hcl : matchLit [')'] (')' :: rest) = some rest := matchLit_self [')'] rest
  simp [pSymbolTail, hml, hb, hcl]

theorem pSymbolTail_locNone (rest : List Char) :
    pSymbolTail ('(' :: ')' :: rest) = some (.loc none, rest) := by
  simp [pSymbolTail, matchLit]

theorem pSymbolTail_locSome (d : String) (rest : List Char) :
    pSymbolTail ('(' :: '"' :: (escList d.data ++ ('"' :: (')' :: rest)))) =
      some (.loc (some d), rest) := by
  have hb := pStrBody_escList d.data (')' :: rest)
  have hcl : matchLit [')'] (')' :: rest) = some rest := matchLit_self [')'] rest
  simp [pSymbolTail, matchLit, hb, hcl]

theorem pExpr_sym (m : Nat) (s : JsSym) (rest : List Char) (hs : symOk s = true) :
    pExpr (m + 1) (symbolChars s ++ rest) = some (.sym s, rest) := by
  cases s with
  | loc d =>
    cases d with
    | none =>
      have hm : munchIdent ('S' :: 'y' :: 'm' :: 'b' :: 'o' :: 'l' :: ('(' :: ')' :: rest)) =
          (("Symbol".data), '(' :: ')' :: rest) :=
        munchIdent_append ("Symbol".data) ('(' :: ')' :: rest) (by decide)
          (headNotIdent_cons _ _ (by decide))
      show pExpr (m + 1) ('S' :: 'y' :: 'm' :: 'b' :: 'o' :: 'l' :: '(' :: ')' :: rest) =
        some (.sym (.loc none), rest)
      simp [pExpr, hm, pSymbolTail_locNone, isDigitC, isIdentStartC, isAlphaC, lbraceC]
    | some dd =>
      have hin : symbolChars (.loc (some dd)) ++ rest =
          'S' :: 'y' :: 'm' :: 'b' :: 'o' :: 'l' ::
            ('(' :: '"' :: (escList dd.data ++ ('"' :: (')' :: rest)))) := by
        simp [symbolChars, keyFor, symbolChars.localSymbolChars, symDescr, quoteChars]
      have hm : munchIdent ('S' :: 'y' :: 'm' :: 'b' :: 'o' :: 'l' ::
          ('(' :: '"' :: (escList dd.data ++ ('"' :: (')' :: rest))))) =
          (("Symbol".data), '(' :: '"' :: (escList dd.data ++ ('"' :: (')' :: rest)))) :=
        munchIdent_append ("Symbol".data) _ (by decide) (headNotIdent_cons _ _ (by decide))
      rw [hin]
      simp [pExpr, hm, pSymbolTail_locSome, isDigitC, isIdentStartC, isAlphaC, lbraceC]
  | glob k =>
    have hk : ¬k.data = [] := by
      intro he
      rw [symOk] at hs
      rw [he] at hs
      simp at hs
    have hin : symbolChars (.glob k) ++ rest =
        'S' :: 'y' :: 'm' :: 'b' :: 'o' :: 'l' ::
          ('.' :: 'f' :: 'o' :: 'r' :: '(' :: '"' :: (escList k.data ++ ('"' :: (')' :: rest)))) := by
      simp [symbolChars, keyFor, hk, quoteChars]
    have hm : munchIdent ('S' :: 'y' :: 'm' :: 'b' :: 'o' :: 'l' ::
        ('.' :: 'f' :: 'o' :: 'r' :: '(' :: '"' :: (escList k.data ++ ('"' :: (')' :: rest))))) =
        (("Symbol".data),
          '.' :: 'f' :: 'o' :: 'r' :: '(' :: '"' :: (escList k.data ++ ('"' :: (')' :: rest)))) :=
      munchIdent_append ("Symbol".data) _ (by decide) (headNotIdent_cons _ _ (by decide))
    rw [hin]
    simp [pExpr, hm, pSymbolTail_glob, isDigitC, isIdentStartC, isAlphaC, lbraceC]

theorem pExpr_date (m : Nat) (ms : Int) (rest : List Char) :
    pExpr (m + 1) ((("new Date(".data) ++ intChars ms ++ [')']) ++ rest) =
      some (.date (roundInt ms), rest) := by
  have hin : (("new Date(".data) ++ intChars ms ++ [')']) ++ rest =
      'n' :: 'e' :: 'w' :: (' ' :: 'D' :: 'a' :: 't' :: 'e' ::
        ('(' :: (intChars ms ++ (')' :: rest)))) := by simp
  have hm1 : munchIdent ('n' :: 'e' :: 'w' :: (' ' :: 'D' :: 'a' :: 't' :: 'e' ::
      ('(' :: (intChars ms ++ (')' :: rest))))) =
      (("new".data), ' ' :: 'D' :: 'a' :: 't' :: 'e' :: ('(' :: (intChars ms ++ (')' :: rest)))) :=
    munchIdent_append ("new".data) _ (by decide) (headNotIdent_cons _ _ (by decide))
  have hm2 : munchIdent ('D' :: 'a' :: 't' :: 'e' :: ('(' :: (intChars ms ++ (')' :: rest)))) =
      (("Date".data), '(' :: (intChars ms ++ (')' :: rest))) :=
    munchIdent_append ("Date".data) _ (by decide) (headNotIdent_cons _ _ (by decide))
  have hP : pIntLit (intChars ms ++ (')' :: rest)) = some (roundInt ms, ')' :: rest) :=
    pIntLit_int ms (')' :: rest) (stopOk_cons _ _ (by decide) (by decide))
  have hcl : matchLit [')'] (')' :: rest) = some rest := matchLit_self [')'] rest
  rw [hin]
  simp [pExpr, hm1, hm2, hP, hcl, matchLit, isDigitC, isIdentStartC, isAlphaC, lbraceC]

/-! ## Container productions, parametrized by the payload parse -/

theorem pExpr_arrEmpty (m : Nat) (rest : List Char) :
    pExpr (m + 1) ('[' :: ']' :: rest) = some (.arr [], rest) := by
  simp [pExpr, matchLit]

theorem pExpr_objEmpty (m : Nat) (rest : List Char) :
    pExpr (m + 1) (lbraceC :: rbraceC :: rest) = some (.obj [], rest) := by
  simp [pExpr, matchLit, lbraceC, rbraceC]

theorem pExpr_mapEmpty (m : Nat) (rest : List Char) :
    pExpr (m + 1) ('n' :: 'e' :: 'w' :: (' ' :: 'M' :: 'a' :: 'p' ::
      ('(' :: '[' :: (']' :: ')' :: rest)))) = some (.map [], rest) := by
  have hm1 : munchIdent ('n' :: 'e' :: 'w' :: (' ' :: 'M' :: 'a' :: 'p' ::
      ('(' :: '[' :: (']' :: ')' :: rest)))) =
      (("new".data), ' ' :: 'M' :: 'a' :: 'p' :: ('(' :: '[' :: (']' :: ')' :: rest))) :=
    munchIdent_append ("new".data) _ (by decide) (headNotIdent_cons _ _ (by decide))
  have hm2 : munchIdent ('M' :: 'a' :: 'p' :: ('(' :: '[' :: (']' :: ')' :: rest))) =
      (("Map".data), '(' :: '[' :: (']' :: ')' :: rest)) :=
    munchIdent_append ("Map".data) _ (by decide) (headNotIdent_cons _ _ (by decide))
  simp [pExpr, hm1, hm2, matchLit, isDigitC, isIdentStartC, isAlphaC, lbraceC]

theorem pExpr_setEmpty (m : Nat) (rest : List Char) :
    pExpr (m + 1) ('n' :: 'e' :: 'w' :: (' ' :: 'S' :: 'e' :: 't' ::
      ('(' :: '[' :: (']' :: ')' :: rest)))) = some (.set [], rest) := by
  have hm1 : munchIdent ('n' :: 'e' :: 'w' :: (' ' :: 'S' :: 'e' :: 't' ::
      ('(' :: '[' :: (']' :: ')' :: rest)))) =
      (("new".data), ' ' :: 'S' :: 'e' :: 't' :: ('(' :: '[' :: (']' :: ')' :: rest))) :=
    munchIdent_append ("new".data) _ (by decide) (headNotIdent_cons _ _ (by decide))
  have hm2 : munchIdent ('S' :: 'e' :: 't' :: ('(' :: '[' :: (']' :: ')' :: rest))) =
      (("Set".data), '(' :: '[' :: (']' :: ')' :: rest)) :=
    munchIdent_append ("Set".data) _ (by decide) (headNotIdent_cons _ _ (by decide))
  simp [pExpr, hm1, hm2, matchLit, isDigitC, isIdentStartC, isAlphaC, lbraceC]

theorem pExpr_arr_cons (m : Nat) (es : List JsVal) (body rest : List Char)
    (hhead : ∃ c t, body = c :: t ∧ c ≠ ']')
    (hp : pElems m (body ++ (']' :: rest)) = some (es, ']' :: rest)) :
    pExpr (m + 1) ('[' :: (body ++ (']' :: rest))) = some (.arr es, rest) := by
  obtain ⟨c, t, hb, hc⟩ := hhead
  have hml : matchLit [']'] (body ++ (']' :: rest)) = none := by
    rw [hb, List.cons_append]
    exact matchLit_head_ne _ _ _ _ (fun he => hc he.symm)
  have hcl : matchLit [']'] (']' :: rest) = some rest := matchLit_self [']'] rest
  simp [pExpr, hml, hp, hcl]

theorem pExpr_obj_cons (m : Nat) (fs : List (JsKey × JsVal)) (body rest : List Char)
    (hhead : ∃ c t, body = c :: t ∧ c ≠ rbraceC)
    (hp : pFields m (body ++ (rbraceC :: rest)) = some (fs, rbraceC :: rest)) :
    pExpr (m + 1) (lbraceC :: (body ++ (rbraceC :: rest))) = some (.obj fs, rest) := by
  obtain ⟨c, t, hb, hc⟩ := hhead
  have hml : matchLit [rbraceC] (body ++ (rbraceC :: rest)) = none := by
    rw [hb, List.cons_append]
    exact matchLit_head_ne _ _ _ _ (fun he => hc he.symm)
  have hcl : matchLit [rbraceC] (rbraceC :: rest) = some rest := matchLit_self [rbraceC] rest
  simp only [rbraceC] at hml hcl hp
  simp [pExpr, hml, hp, hcl, lbraceC, rbraceC]

theorem pExpr_map_cons (m : Nat) (ps : List (JsVal × JsVal)) (body rest : List Char)
    (hhead : ∃ c t, body = c :: t ∧ c ≠ ']')
    (hp : pPairs m (body ++ (']' :: ')' :: rest)) = some (ps, ']' :: ')' :: rest)) :
    pExpr (m + 1) ('n' :: 'e' :: 'w' :: (' ' :: 'M' :: 'a' :: 'p' ::
      ('(' :: '[' :: (body ++ (']' :: ')' :: rest))))) = some (.map ps, rest) := by
  obtain ⟨c, t, hb, hc⟩ := hhead
  have hm1 : munchIdent ('n' :: 'e' :: 'w' :: (' ' :: 'M' :: 'a' :: 'p' ::
      ('(' :: '[' :: (body ++ (']' :: ')' :: rest))))) =
      (("new".data), ' ' :: 'M' :: 'a' :: 'p' :: ('(' :: '[' :: (body ++ (']' :: ')' :: rest)))) :=
    munchIdent_append ("new".data) _ (by decide) (headNotIdent_cons _ _ (by decide))
  have hm2 : munchIdent ('M' :: 'a' :: 'p' :: ('(' :: '[' :: (body ++ (']' :: ')' :: rest)))) =
      (("Map".data), '(' :: '[' :: (body ++ (']' :: ')' :: rest))) :=
    munchIdent_append ("Map".data) _ (by decide) (headNotIdent_cons _ _ (by decide))
  have hml : matchLit ['(', '[', ']', ')'] ('(' :: '[' :: (body ++ (']' :: ')' :: rest))) =
      none := by
    rw [hb, List.cons_append]
    simp only [matchLit, if_pos rfl]
    exact matchLit_head_ne _ _ _ _ (fun he => hc he.symm)
  have hop : matchLit ['(', '['] ('(' :: '[' :: (body ++ (']' :: ')' :: rest))) =
      some (body ++ (']' :: ')' :: rest)) := matchLit_self ("([".data) _
  have hcl : matchLit [']', ')'] (']' :: ')' :: rest) = some rest :=
    matchLit_self ("])".data) rest
  have hsp : matchLit [' ']
      (' ' :: 'M' :: 'a' :: 'p' :: ('(' :: '[' :: (body ++ (']' :: ')' :: rest)))) =
      some ('M' :: 'a' :: 'p' :: ('(' :: '[' :: (body ++ (']' :: ')' :: rest)))) :=
    matchLit_self [' '] _
  simp [pExpr, hm1, hm2, hml, hop, hp, hcl, hsp, isDigitC, isIdentStartC, isAlphaC, lbraceC]

theorem pExpr_set_cons (m : Nat) (es : List JsVal) (body rest : List Char)
    (hhead : ∃ c t, body = c :: t ∧ c ≠ ']')
    (hp : pElems m (body ++ (']' :: ')' :: rest)) = some (es, ']' :: ')' :: rest)) :
    pExpr (m + 1) ('n' :: 'e' :: 'w' :: (' ' :: 'S' :: 'e' :: 't' ::
      ('(' :: '[' :: (body ++ (']' :: ')' :: rest))))) = some (.set es, rest) := by
  obtain ⟨c, t, hb, hc⟩ := hhead
  have hm1 : munchIdent ('n' :: 'e' :: 'w' :: (' ' :: 'S' :: 'e' :: 't' ::
      ('(' :: '[' :: (body ++ (']' :: ')' :: rest))))) =
      (("new".data), ' ' :: 'S' :: 'e' :: 't' :: ('(' :: '[' :: (body ++ (']' :: ')' :: rest)))) :=
    munchIdent_append ("new".data) _ (by decide) (headNotIdent_cons _ _ (by decide))
  have hm2 : munchIdent ('S' :: 'e' :: 't' :: ('(' :: '[' :: (body ++ (']' :: ')' :: rest)))) =
      (("Set".data), '(' :: '[' :: (body ++ (']' :: ')' :: rest))) :=
    munchIdent_append ("Set".data) _ (by decide) (headNotIdent_cons _ _ (by decide))
  have hml : matchLit ['(', '[', ']', ')'] ('(' :: '[' :: (body ++ (']' :: ')' :: rest))) =
      none := by
    rw [hb, List.cons_append]
    simp only [matchLit, if_pos rfl]
    exact matchLit_head_ne _ _ _ _ (fun he => hc he.symm)
  have hop : matchLit ['(', '['] ('(' :: '[' :: (body ++ (']' :: ')' :: rest))) =
      some (body ++ (']' :: ')' :: rest)) := matchLit_self ("([".data) _
  have hcl : matchLit [']', ')'] (']' :: ')' :: rest) = some rest :=
    matchLit_self ("])".data) rest
  have hsp : matchLit [' ']
      (' ' :: 'S' :: 'e' :: 't' :: ('(' :: '[' :: (body ++ (']' :: ')' :: rest)))) =
      some ('S' :: 'e' :: 't' :: ('(' :: '[' :: (body ++ (']' :: ')' :: rest)))) :=
    matchLit_self [' '] _
  simp [pExpr, hm1, hm2, hml, hop, hp, hcl, hsp, isDigitC, isIdentStartC, isAlphaC, lbraceC]

/-! ## Sizes, identifier keys, join heads -/

theorem sizeV_pos (v : JsVal) : 1 ≤ sizeV v := by
  cases v <;> simp [sizeV]

theorem joinComma_head (x : List Char) (xs : List (List Char)) (c : Char) (t : List Char)
    (hx : x = c :: t) : ∃ t', joinComma (x :: xs) = c :: t' := by
  cases xs with
  | nil => exact ⟨t, by simp [joinComma, hx]⟩
  | cons y ys => exact ⟨t ++ ((", ".data) ++ joinComma (y :: ys)), by simp [joinComma, hx]⟩

theorem isIdentC_of_isIdentStartC (c : Char) (h : isIdentStartC c = true) :
    isIdentC c = true := by
  simp only [isIdentStartC, Bool.or_eq_true, decide_eq_true_eq] at h
  rw [isIdentC_eq_true_iff]
  tauto

theorem isIdentStartC_ne (c : Char) (h : isIdentStartC c = true) :
    c ≠ '[' ∧ c ≠ rbraceC := by
  constructor
  · intro he; rw [he] at h; exact absurd h (by decide)
  · intro he; rw [he] at h; exact absurd h (by decide)

theorem isIdentName_spec (s : String) (h : isIdentName s = true) :
    ∃ c t, s.data = c :: t ∧ isIdentStartC c = true ∧ (∀ x ∈ s.data, isIdentC x = true) := by
  rw [isIdentName] at h
  cases hs : s.data with
  | nil => rw [hs] at h; simp at h
  | cons c t =>
    rw [hs] at h
    simp only [Bool.and_eq_true, List.all_eq_true] at h
    obtain ⟨h1, h2⟩ := h
    refine ⟨c, t, rfl, h1, ?_⟩
    intro x hx
    rcases List.mem_cons.mp hx with hx | hx
    · rw [hx]; exact isIdentC_of_isIdentStartC _ h1
    · exact h2 x hx

theorem mk_data_eq (s : String) : String.mk s.data = s := rfl

/-! ## The round-trip induction

For every well-formed value, the evaluator reads the rendered text back to
the same value, leaving exactly the trailing input, for any fuel with
enough slack.  Proved by strong induction on the value size, mutually over
values, element lists, entry lists and field lists. -/

theorem parseRound : ∀ K : Nat,
    (∀ v, sizeV v ≤ K → ∀ cur rest n, rtOk v = true → stopOk rest →
      pExpr (sizeV v + n) (renderV [] cur v ++ rest) = some (v, rest)) ∧
    (∀ es, sizeL es ≤ K → es ≠ [] → ∀ cur rest n, rtOkL es = true → stopOk rest →
      rest.head? ≠ some ',' →
      pElems (sizeL es + n) (joinComma (renderList [] cur es) ++ rest) = some (es, rest)) ∧
    (∀ ps, sizeP ps ≤ K → ps ≠ [] → ∀ cur rest n, rtOkP ps = true →
      rest.head? ≠ some ',' →
      pPairs (sizeP ps + n) (joinComma (renderPairs [] cur ps) ++ rest) = some (ps, rest)) ∧
    (∀ fs, sizeF fs ≤ K → fs ≠ [] → ∀ cur rest n, rtOkF fs = true → stopOk rest →
      rest.head? ≠ some ',' →
      pFields (sizeF fs + n) (joinComma (renderFields [] cur fs) ++ rest) = some (fs, rest)) := by
  intro K
  induction K with
  | zero =>
    refine ⟨?_, ?_, ?_, ?_⟩
    · intro v hv cur rest n _ _
      exact absurd hv (by have := sizeV_pos v; omega)
    · intro es hsz hne cur rest n _ _ _
      cases es with
      | nil => exact absurd rfl hne
      | cons a b => simp only [sizeL] at hsz; omega
    · intro ps hsz hne cur rest n _ _
      cases ps with
      | nil => exact absurd rfl hne
      | cons a b =>
        obtain ⟨k, v⟩ := a
        simp only [sizeP] at hsz; omega
    · intro fs hsz hne cur rest n _ _ _
      cases fs with
      | nil => exact absurd rfl hne
      | cons a b =>
        obtain ⟨k, v⟩ := a
        simp only [sizeF] at hsz; omega
  | succ K ih =>
    obtain ⟨ihV, ihL, ihP, ihF⟩ := ih
    refine ⟨?_, ?_, ?_, ?_⟩
    · -- values
      intro v hv cur rest n hrt hstop
      cases v with
      | nullV =>
        rw [show sizeV JsVal.nullV + n = n + 1 from by simp only [sizeV]; omega]
        exact pExpr_null n rest hstop
      | undef =>
        rw [show sizeV JsVal.undef + n = n + 1 from by simp only [sizeV]; omega]
        exact pExpr_undef n rest hstop
      | str s =>
        rw [show sizeV (JsVal.str s) + n = n + 1 from by simp only [sizeV]; omega]
        exact pExpr_str n s rest
      | num nn =>
        cases nn with
        | nan =>
          rw [show sizeV (JsVal.num .nan) + n = n + 1 from by simp only [sizeV]; omega]
          exact pExpr_nan n rest hstop
        | inf =>
          rw [show sizeV (JsVal.num .inf) + n = n + 1 from by simp only [sizeV]; omega]
          exact pExpr_inf n rest hstop
        | ninf =>
          rw [show sizeV (JsVal.num .ninf) + n = n + 1 from by simp only [sizeV]; omega]
          exact pExpr_ninf n rest
        | fin i =>
          simp only [rtOk, Bool.and_eq_true, decide_eq_true_eq] at hrt
          obtain ⟨hr1, _⟩ := hrt
          rw [show sizeV (JsVal.num (.fin i)) + n = n + 1 from by simp only [sizeV]; omega]
          have h2 := pExpr_intChars n i rest hstop
          rw [hr1] at h2
          exact h2
      | bool b =>
        cases b with
        | true =>
          rw [show sizeV (JsVal.bool true) + n = n + 1 from by simp only [sizeV]; omega]
          exact pExpr_true n rest hstop
        | false =>
          rw [show sizeV (JsVal.bool false) + n = n + 1 from by simp only [sizeV]; omega]
          exact pExpr_false n rest hstop
      | bigint i => simp [rtOk] at hrt
      | sym s =>
        rw [show sizeV (JsVal.sym s) + n = n + 1 from by simp only [sizeV]; omega]
        exact pExpr_sym n s rest hrt
      | date ms =>
        simp only [rtOk, decide_eq_true_eq] at hrt
        rw [show sizeV (JsVal.date ms) + n = n + 1 from by simp only [sizeV]; omega]
        have h2 := pExpr_date n ms rest
        rw [roundInt_small ms (le_trans hrt (by norm_num))] at h2
        exact h2
      | regexp src flags =>
        simp only [rtOk, Bool.and_eq_true, List.all_eq_true] at hrt
        obtain ⟨⟨hne', hall⟩, hfl⟩ := hrt
        have hne2 : src.data ≠ [] := by
          cases hd : src.data with
          | nil => rw [hd] at hne'; simp at hne'
          | cons a b => simp
        rw [show sizeV (JsVal.regexp src flags) + n = n + 1 from by simp only [sizeV]; omega]
        refine pExpr_regex n src flags rest hne2 ?_ hfl hstop
        intro c hc
        rcases hall c hc with ⟨u1, u2⟩
        rw [Bool.and_eq_true]
        exact ⟨u1, u2⟩
      | error name msg stack => simp [rtOk] at hrt
      | arr es =>
        cases es with
        | nil =>
          rw [show sizeV (JsVal.arr []) + n = n + 1 from by
            simp only [sizeV, sizeL]; omega]
          exact pExpr_arrEmpty n rest
        | cons e etail =>
          have hszL : sizeL (e :: etail) ≤ K := by simp only [sizeV] at hv; omega
          have hrend : renderV [] cur (.arr (e :: etail)) ++ rest =
              '[' :: (joinComma (renderList [] cur (e :: etail)) ++ (']' :: rest)) := by
            simp [renderV]
          rw [show sizeV (JsVal.arr (e :: etail)) + n = (sizeL (e :: etail) + n) + 1 from by
            simp only [sizeV]; omega]
          rw [hrend]
          obtain ⟨c0, t0, hh, hgh⟩ := renderV_head_spec cur e
          obtain ⟨t', hj⟩ := joinComma_head (renderV [] cur e) (renderList [] cur etail)
            c0 t0 hh
          refine pExpr_arr_cons (sizeL (e :: etail) + n) (e :: etail) _ rest
            ⟨c0, t', hj, hgh.2.2.2.1⟩ ?_
          exact ihL (e :: etail) hszL (by simp) cur (']' :: rest) n hrt
            (stopOk_cons _ _ (by decide) (by decide)) (by simp)
      | set es =>
        cases es with
        | nil =>
          have hrend : renderV [] cur (.set []) ++ rest =
              'n' :: 'e' :: 'w' :: (' ' :: 'S' :: 'e' :: 't' ::
                ('(' :: '[' :: (']' :: ')' :: rest))) := by
            simp [renderV, renderList, joinComma]
          rw [show sizeV (JsVal.set []) + n = n + 1 from by
            simp only [sizeV, sizeL]; omega]
          rw [hrend]
          exact pExpr_setEmpty n rest
        | cons e etail =>
          have hszL : sizeL (e :: etail) ≤ K := by simp only [sizeV] at hv; omega
          have hrend : renderV [] cur (.set (e :: etail)) ++ rest =
              'n' :: 'e' :: 'w' :: (' ' :: 'S' :: 'e' :: 't' ::
                ('(' :: '[' :: (joinComma (renderList [] cur (e :: etail)) ++
                  (']' :: ')' :: rest)))) := by
            simp [renderV]
          rw [show sizeV (JsVal.set (e :: etail)) + n = (sizeL (e :: etail) + n) + 1 from by
            simp only [sizeV]; omega]
          rw [hrend]
          obtain ⟨c0, t0, hh, hgh⟩ := renderV_head_spec cur e
          obtain ⟨t', hj⟩ := joinComma_head (renderV [] cur e) (renderList [] cur etail)
            c0 t0 hh
          refine pExpr_set_cons (sizeL (e :: etail) + n) (e :: etail) _ rest
            ⟨c0, t', hj, hgh.2.2.2.1⟩ ?_
          exact ihL (e :: etail) hszL (by simp) cur (']' :: ')' :: rest) n hrt
            (stopOk_cons _ _ (by decide) (by decide)) (by simp)
      | map ps =>
        cases ps with
        | nil =>
          have hrend : renderV [] cur (.map []) ++ rest =
              'n' :: 'e' :: 'w' :: (' ' :: 'M' :: 'a' :: 'p' ::
                ('(' :: '[' :: (']' :: ')' :: rest))) := by
            simp [renderV, renderPairs, joinComma]
          rw [show sizeV (JsVal.map []) + n = n + 1 from by
            simp only [sizeV, sizeP]; omega]
          rw [hrend]
          exact pExpr_mapEmpty n rest
        | cons p ptail =>
          obtain ⟨k0, v0⟩ := p
          have hszP : sizeP ((k0, v0) :: ptail) ≤ K := by simp only [sizeV] at hv; omega
          have hrend : renderV [] cur (.map ((k0, v0) :: ptail)) ++ rest =
              'n' :: 'e' :: 'w' :: (' ' :: 'M' :: 'a' :: 'p' ::
                ('(' :: '[' :: (joinComma (renderPairs [] cur ((k0, v0) :: ptail)) ++
                  (']' :: ')' :: rest)))) := by
            simp [renderV]
          rw [show sizeV (JsVal.map ((k0, v0) :: ptail)) + n =
              (sizeP ((k0, v0) :: ptail) + n) + 1 from by simp only [sizeV]; omega]
          rw [hrend]
          have hx : renderPairs [] cur ((k0, v0) :: ptail) =
              ('[' :: (renderV [] cur k0 ++ (", ".data) ++ (renderV [] cur v0 ++ [']']))) ::
                renderPairs [] cur ptail := by
            simp [renderPairs]
          obtain ⟨t', hj⟩ := joinComma_head
            ('[' :: (renderV [] cur k0 ++ (", ".data) ++ (renderV [] cur v0 ++ [']'])))
            (renderPairs [] cur ptail) '[' _ rfl
          have hjj : joinComma (renderPairs [] cur ((k0, v0) :: ptail)) = '[' :: t' := by
            rw [hx]; exact hj
          refine pExpr_map_cons (sizeP ((k0, v0) :: ptail) + n) ((k0, v0) :: ptail) _ rest
            ⟨'[', t', hjj, by decide⟩ ?_
          exact ihP ((k0, v0) :: ptail) hszP (by simp) cur (']' :: ')' :: rest) n hrt
            (by simp)
      | obj fs =>
        cases fs with
        | nil =>
          rw [show sizeV (JsVal.obj []) + n = n + 1 from by
            simp only [sizeV, sizeF]; omega]
          exact pExpr_objEmpty n rest
        | cons f ftail =>
          obtain ⟨k0, v0⟩ := f
          have hszF : sizeF ((k0, v0) :: ftail) ≤ K := by simp only [sizeV] at hv; omega
          have hrend : renderV [] cur (.obj ((k0, v0) :: ftail)) ++ rest =
              lbraceC :: (joinComma (renderFields [] cur ((k0, v0) :: ftail)) ++
                (rbraceC :: rest)) := by
            simp [renderV]
          rw [show sizeV (JsVal.obj ((k0, v0) :: ftail)) + n =
              (sizeF ((k0, v0) :: ftail) + n) + 1 from by simp only [sizeV]; omega]
          rw [hrend]
          have hkOk : keyOk k0 = true := by
            have h' : rtOkF ((k0, v0) :: ftail) = true := hrt
            simp only [rtOkF, Bool.and_eq_true] at h'
            exact h'.1.1
          have hkey : ∃ c t, keyChars k0 = c :: t ∧ c ≠ rbraceC := by
            cases k0 with
            | str s =>
              obtain ⟨c, t, hd, hst, _⟩ := isIdentName_spec s hkOk
              exact ⟨c, t, by simp [keyChars, hd], (isIdentStartC_ne c hst).2⟩
            | sym sy => exact ⟨'[', symbolChars sy ++ [']'], by simp [keyChars], by decide⟩
          obtain ⟨c0, t0, hk, hkne⟩ := hkey
          have hx : renderFields [] cur ((k0, v0) :: ftail) =
              (keyChars k0 ++ (": ".data) ++ renderV [] cur v0) ::
                renderFields [] cur ftail := by
            simp [renderFields]
          obtain ⟨t', hj⟩ := joinComma_head
            (keyChars k0 ++ (": ".data) ++ renderV [] cur v0)
            (renderFields [] cur ftail) c0 (t0 ++ ((": ".data) ++ renderV [] cur v0))
            (by rw [hk]; simp)
          have hjj : joinComma (renderFields [] cur ((k0, v0) :: ftail)) = c0 :: t' := by
            rw [hx]; exact hj
          refine pExpr_obj_cons (sizeF ((k0, v0) :: ftail) + n) ((k0, v0) :: ftail) _ rest
            ⟨c0, t', hjj, hkne⟩ ?_
          exact ihF ((k0, v0) :: ftail) hszF (by simp) cur (rbraceC :: rest) n hrt
            (stopOk_cons _ _ (by decide) (by decide)) (by simp [rbraceC])
    · -- element lists
      intro es hsz hne cur rest n hrt hstop hcomma
      cases es with
      | nil => exact absurd rfl hne
      | cons v tail =>
        simp only [rtOkL, Bool.and_eq_true] at hrt
        obtain ⟨hrv, hrtail⟩ := hrt
        have hszv : sizeV v ≤ K := by simp only [sizeL] at hsz; omega
        have hnc : matchLit ([',', ' ']) rest = none := matchLit_head?_ne ',' [' '] rest hcomma
        cases tail with
        | nil =>
          have htext : joinComma (renderList [] cur [v]) ++ rest =
              renderV [] cur v ++ rest := by simp [renderList, joinComma]
          rw [show sizeL [v] + n = (sizeV v + n) + 1 from by
            simp only [sizeL]; omega]
          rw [htext]
          have h1 := ihV v hszv cur rest n hrv hstop
          simp [pElems, h1, hnc]
        | cons w tail' =>
          have hsztail : sizeL (w :: tail') ≤ K := by
            simp only [sizeL] at hsz ⊢; omega
          have htext : joinComma (renderList [] cur (v :: w :: tail')) ++ rest =
              renderV [] cur v ++ (',' :: ' ' ::
                (joinComma (renderList [] cur (w :: tail')) ++ rest)) := by
            simp [renderList, joinComma]
          rw [show sizeL (v :: w :: tail') + n =
              (sizeV v + (sizeL (w :: tail') + n)) + 1 from by simp only [sizeL]; omega]
          rw [htext]
          have h1 := ihV v hszv cur
            (',' :: ' ' :: (joinComma (renderList [] cur (w :: tail')) ++ rest))
            (sizeL (w :: tail') + n) hrv (stopOk_cons _ _ (by decide) (by decide))
          have h2 := ihL (w :: tail') hsztail (by simp) cur rest (sizeV v + n)
            hrtail hstop hcomma
          rw [show sizeL (w :: tail') + (sizeV v + n) =
              sizeV v + (sizeL (w :: tail') + n) from by omega] at h2
          have hsp : matchLit ([',', ' '])
              (',' :: ' ' :: (joinComma (renderList [] cur (w :: tail')) ++ rest)) =
              some (joinComma (renderList [] cur (w :: tail')) ++ rest) :=
            matchLit_self (", ".data) _
          simp [pElems, h1, hsp, h2]
    · -- entry lists
      intro ps hsz hne cur rest n hrt hcomma
      cases ps with
      | nil => exact absurd rfl hne
      | cons p ptail =>
        obtain ⟨k0, v0⟩ := p
        simp only [rtOkP, Bool.and_eq_true] at hrt
        obtain ⟨⟨hrk, hrv⟩, hrtail⟩ := hrt
        have hszk : sizeV k0 ≤ K := by simp only [sizeP] at hsz; omega
        have hszv : sizeV v0 ≤ K := by simp only [sizeP] at hsz; omega
        have hnc : matchLit ([',', ' ']) rest = none := matchLit_head?_ne ',' [' '] rest hcomma
        cases ptail with
        | nil =>
          have htext : joinComma (renderPairs [] cur [(k0, v0)]) ++ rest =
              '[' :: (renderV [] cur k0 ++ (',' :: ' ' ::
                (renderV [] cur v0 ++ (']' :: rest)))) := by
            simp [renderPairs, joinComma]
          rw [show sizeP [(k0, v0)] + n = (sizeV k0 + (sizeV v0 + n)) + 1 from by
            simp only [sizeP]; omega]
          rw [htext]
          have h1 := ihV k0 hszk cur
            (',' :: ' ' :: (renderV [] cur v0 ++ (']' :: rest))) (sizeV v0 + n) hrk
            (stopOk_cons _ _ (by decide) (by decide))
          have h2 := ihV v0 hszv cur (']' :: rest) (sizeV k0 + n) hrv
            (stopOk_cons _ _ (by decide) (by decide))
          rw [show sizeV v0 + (sizeV k0 + n) = sizeV k0 + (sizeV v0 + n) from by omega] at h2
          have hsp : matchLit ([',', ' '])
              (',' :: ' ' :: (renderV [] cur v0 ++ (']' :: rest))) =
              some (renderV [] cur v0 ++ (']' :: rest)) := matchLit_self (", ".data) _
          have hob : matchLit (['[']) ('[' :: (renderV [] cur k0 ++ (',' :: ' ' ::
              (renderV [] cur v0 ++ (']' :: rest))))) =
              some (renderV [] cur k0 ++ (',' :: ' ' ::
                (renderV [] cur v0 ++ (']' :: rest)))) := matchLit_self ['['] _
          have hcl : matchLit ([']']) (']' :: rest) = some rest := matchLit_self [']'] rest
          simp [pPairs, hob, h1, hsp, h2, hcl, hnc]
        | cons q qtail =>
          have hsztail : sizeP (q :: qtail) ≤ K := by
            simp only [sizeP] at hsz ⊢; omega
          have htext : joinComma (renderPairs [] cur ((k0, v0) :: q :: qtail)) ++ rest =
              '[' :: (renderV [] cur k0 ++ (',' :: ' ' ::
                (renderV [] cur v0 ++ (']' :: ',' :: ' ' ::
                  (joinComma (renderPairs [] cur (q :: qtail)) ++ rest))))) := by
            simp [renderPairs, joinComma]
          rw [show sizeP ((k0, v0) :: q :: qtail) + n =
              (sizeV k0 + (sizeV v0 + (sizeP (q :: qtail) + n))) + 1 from by
            simp only [sizeP]; omega]
          rw [htext]
          have h1 := ihV k0 hszk cur
            (',' :: ' ' :: (renderV [] cur v0 ++ (']' :: ',' :: ' ' ::
              (joinComma (renderPairs [] cur (q :: qtail)) ++ rest))))
            (sizeV v0 + (sizeP (q :: qtail) + n)) hrk
            (stopOk_cons _ _ (by decide) (by decide))
          have h2 := ihV v0 hszv cur
            (']' :: ',' :: ' ' :: (joinComma (renderPairs [] cur (q :: qtail)) ++ rest))
            (sizeV k0 + (sizeP (q :: qtail) + n)) hrv
            (stopOk_cons _ _ (by decide) (by decide))
          rw [show sizeV v0 + (sizeV k0 + (sizeP (q :: qtail) + n)) =
              sizeV k0 + (sizeV v0 + (sizeP (q :: qtail) + n)) from by omega] at h2
          have h3 := ihP (q :: qtail) hsztail (by simp) cur rest
            (sizeV k0 + (sizeV v0 + n)) hrtail hcomma
          rw [show sizeP (q :: qtail) + (sizeV k0 + (sizeV v0 + n)) =
              sizeV k0 + (sizeV v0 + (sizeP (q :: qtail) + n)) from by omega] at h3
          have hsp : matchLit ([',', ' '])
              (',' :: ' ' :: (renderV [] cur v0 ++ (']' :: ',' :: ' ' ::
                (joinComma (renderPairs [] cur (q :: qtail)) ++ rest)))) =
              some (renderV [] cur v0 ++ (']' :: ',' :: ' ' ::
                (joinComma (renderPairs [] cur (q :: qtail)) ++ rest))) :=
            matchLit_self (", ".data) _
          have hsp2 : matchLit ([',', ' '])
              (',' :: ' ' :: (joinComma (renderPairs [] cur (q :: qtail)) ++ rest)) =
              some (joinComma (renderPairs [] cur (q :: qtail)) ++ rest) :=
            matchLit_self (", ".data) _
          have hob : matchLit (['[']) ('[' :: (renderV [] cur k0 ++ (',' :: ' ' ::
              (renderV [] cur v0 ++ (']' :: ',' :: ' ' ::
                (joinComma (renderPairs [] cur (q :: qtail)) ++ rest)))))) =
              some (renderV [] cur k0 ++ (',' :: ' ' ::
                (renderV [] cur v0 ++ (']' :: ',' :: ' ' ::
                  (joinComma (renderPairs [] cur (q :: qtail)) ++ rest))))) :=
            matchLit_self ['['] _
          have hcl2 : matchLit ([']']) (']' :: ',' :: ' ' ::
              (joinComma (renderPairs [] cur (q :: qtail)) ++ rest)) =
              some (',' :: ' ' :: (joinComma (renderPairs [] cur (q :: qtail)) ++ rest)) :=
            matchLit_self [']'] _
          simp [pPairs, hob, h1, hsp, h2, hsp2, hcl2, h3]
    · -- field lists
      intro fs hsz hne cur rest n hrt hstop hcomma
      cases fs with
      | nil => exact absurd rfl hne
      | cons f ftail =>
        obtain ⟨k0, v0⟩ := f
        simp only [rtOkF, Bool.and_eq_true] at hrt
        obtain ⟨⟨hrk, hrv⟩, hrtail⟩ := hrt
        have hszv : sizeV v0 ≤ K := by simp only [sizeF] at hsz; omega
        have hnc : matchLit ([',', ' ']) rest = none := matchLit_head?_ne ',' [' '] rest hcomma
        cases k0 with
        | str s =>
          obtain ⟨c, t, hd, hst, hall⟩ := isIdentName_spec s hrk
          have hie : s.data.isEmpty = false := by rw [hd]; rfl
          have hbrk : ∀ X, matchLit (['[']) (s.data ++ X) = none := by
            intro X
            rw [hd, List.cons_append]
            exact matchLit_head_ne _ _ _ _ (fun he => (isIdentStartC_ne c hst).1 he.symm)
          have hmu : ∀ X, headNotIdent X →
              munchIdent (s.data ++ X) = (s.data, X) := fun X hX =>
            munchIdent_append s.data X hall hX
          cases ftail with
          | nil =>
            have htext : joinComma (renderFields [] cur [(JsKey.str s, v0)]) ++ rest =
                s.data ++ (':' :: ' ' :: (renderV [] cur v0 ++ rest)) := by
              simp [renderFields, joinComma, keyChars]
            rw [show sizeF [(JsKey.str s, v0)] + n = (sizeV v0 + n) + 1 from by
              simp only [sizeF]; omega]
            rw [htext]
            have hmu1 := hmu (':' :: ' ' :: (renderV [] cur v0 ++ rest))
              (headNotIdent_cons _ _ (by decide))
            have hcs : matchLit ([':', ' ']) (':' :: ' ' :: (renderV [] cur v0 ++ rest)) =
                some (renderV [] cur v0 ++ rest) := matchLit_self (": ".data) _
            have h1 := ihV v0 hszv cur rest n hrv hstop
            simp [pFields, hbrk, hmu1, hie, hcs, h1, hnc, mk_data_eq]
          | cons g gtail =>
            have hsztail : sizeF (g :: gtail) ≤ K := by
              simp only [sizeF] at hsz ⊢; omega
            have htext :
                joinComma (renderFields [] cur ((JsKey.str s, v0) :: g :: gtail)) ++ rest =
                s.data ++ (':' :: ' ' :: (renderV [] cur v0 ++ (',' :: ' ' ::
                  (joinComma (renderFields [] cur (g :: gtail)) ++ rest)))) := by
              simp [renderFields, joinComma, keyChars]
            rw [show sizeF ((JsKey.str s, v0) :: g :: gtail) + n =
                (sizeV v0 + (sizeF (g :: gtail) + n)) + 1 from by
              simp only [sizeF]; omega]
            rw [htext]
            have hmu1 := hmu (':' :: ' ' :: (renderV [] cur v0 ++ (',' :: ' ' ::
              (joinComma (renderFields [] cur (g :: gtail)) ++ rest))))
              (headNotIdent_cons _ _ (by decide))
            have hcs : matchLit ([':', ' ']) (':' :: ' ' :: (renderV [] cur v0 ++
                (',' :: ' ' :: (joinComma (renderFields [] cur (g :: gtail)) ++ rest)))) =
                some (renderV [] cur v0 ++ (',' :: ' ' ::
                  (joinComma (renderFields [] cur (g :: gtail)) ++ rest))) :=
              matchLit_self (": ".data) _
            have h1 := ihV v0 hszv cur
              (',' :: ' ' :: (joinComma (renderFields [] cur (g :: gtail)) ++ rest))
              (sizeF (g :: gtail) + n) hrv (stopOk_cons _ _ (by decide) (by decide))
            have hsp : matchLit ([',', ' ']) (',' :: ' ' ::
                (joinComma (renderFields [] cur (g :: gtail)) ++ rest)) =
                some (joinComma (renderFields [] cur (g :: gtail)) ++ rest) :=
              matchLit_self (", ".data) _
            have h2 := ihF (g :: gtail) hsztail (by simp) cur rest (sizeV v0 + n)
              hrtail hstop hcomma
            rw [show sizeF (g :: gtail) + (sizeV v0 + n) =
                sizeV v0 + (sizeF (g :: gtail) + n) from by omega] at h2
            simp [pFields, hbrk, hmu1, hie, hcs, h1, hsp, h2, mk_data_eq]
        | sym sy =>
          have hK1 : 1 ≤ K := by
            have := sizeV_pos v0
            simp only [sizeF] at hsz
            omega
          cases ftail with
          | nil =>
            have htext : joinComma (renderFields [] cur [(JsKey.sym sy, v0)]) ++ rest =
                '[' :: (symbolChars sy ++ (']' :: ':' :: ' ' ::
                  (renderV [] cur v0 ++ rest))) := by
              simp [renderFields, joinComma, keyChars]
            rw [show sizeF [(JsKey.sym sy, v0)] + n = (sizeV v0 + n) + 1 from by
              simp only [sizeF]; omega]
            rw [htext]
            have hob : matchLit (['[']) ('[' :: (symbolChars sy ++ (']' :: ':' :: ' ' ::
                (renderV [] cur v0 ++ rest)))) =
                some (symbolChars sy ++ (']' :: ':' :: ' ' ::
                  (renderV [] cur v0 ++ rest))) := matchLit_self ['['] _
            have h0 := ihV (JsVal.sym sy) (by simp only [sizeV]; omega) cur
              (']' :: ':' :: ' ' :: (renderV [] cur v0 ++ rest)) (sizeV v0 + n - 1) hrk
              (stopOk_cons _ _ (by decide) (by decide))
            rw [show sizeV (JsVal.sym sy) + (sizeV v0 + n - 1) = sizeV v0 + n from by
              simp only [sizeV]; have := sizeV_pos v0; omega] at h0
            simp only [renderV] at h0
            have hbc : matchLit ([']', ':', ' ']) (']' :: ':' :: ' ' ::
                (renderV [] cur v0 ++ rest)) = some (renderV [] cur v0 ++ rest) :=
              matchLit_self ("]: ".data) _
            have h1 := ihV v0 hszv cur rest n hrv hstop
            simp [pFields, hob, h0, hbc, h1, hnc]
          | cons g gtail =>
            have hsztail : sizeF (g :: gtail) ≤ K := by
              simp only [sizeF] at hsz ⊢; omega
            have htext :
                joinComma (renderFields [] cur ((JsKey.sym sy, v0) :: g :: gtail)) ++ rest =
                '[' :: (symbolChars sy ++ (']' :: ':' :: ' ' ::
                  (renderV [] cur v0 ++ (',' :: ' ' ::
                    (joinComma (renderFields [] cur (g :: gtail)) ++ rest))))) := by
              simp [renderFields, joinComma, keyChars]
            rw [show sizeF ((JsKey.sym sy, v0) :: g :: gtail) + n =
                (sizeV v0 + (sizeF (g :: gtail) + n)) + 1 from by
              simp only [sizeF]; omega]
            rw [htext]
            have hob : matchLit (['[']) ('[' :: (symbolChars sy ++ (']' :: ':' :: ' ' ::
                (renderV [] cur v0 ++ (',' :: ' ' ::
                  (joinComma (renderFields [] cur (g :: gtail)) ++ rest)))))) =
                some (symbolChars sy ++ (']' :: ':' :: ' ' ::
                  (renderV [] cur v0 ++ (',' :: ' ' ::
                    (joinComma (renderFields [] cur (g :: gtail)) ++ rest))))) :=
              matchLit_self ['['] _
            have h0 := ihV (JsVal.sym sy) (by simp only [sizeV]; omega) cur
              (']' :: ':' :: ' ' :: (renderV [] cur v0 ++ (',' :: ' ' ::
                (joinComma (renderFields [] cur (g :: gtail)) ++ rest))))
              (sizeV v0 + (sizeF (g :: gtail) + n) - 1) hrk
              (stopOk_cons _ _ (by decide) (by decide))
            rw [show sizeV (JsVal.sym sy) + (sizeV v0 + (sizeF (g :: gtail) + n) - 1) =
                sizeV v0 + (sizeF (g :: gtail) + n) from by
              simp only [sizeV]; have := sizeV_pos v0; omega] at h0
            simp only [renderV] at h0
            have hbc : matchLit ([']', ':', ' ']) (']' :: ':' :: ' ' ::
                (renderV [] cur v0 ++ (',' :: ' ' ::
                  (joinComma (renderFields [] cur (g :: gtail)) ++ rest)))) =
                some (renderV [] cur v0 ++ (',' :: ' ' ::
                  (joinComma (renderFields [] cur (g :: gtail)) ++ rest))) :=
              matchLit_self ("]: ".data) _
            have h1 := ihV v0 hszv cur
              (',' :: ' ' :: (joinComma (renderFields [] cur (g :: gtail)) ++ rest))
              (sizeF (g :: gtail) + n) hrv (stopOk_cons _ _ (by decide) (by decide))
            have hsp : matchLit ([',', ' ']) (',' :: ' ' ::
                (joinComma (renderFields [] cur (g :: gtail)) ++ rest)) =
                some (joinComma (renderFields [] cur (g :: gtail)) ++ rest) :=
              matchLit_self (", ".data) _
            have h2 := ihF (g :: gtail) hsztail (by simp) cur rest (sizeV v0 + n)
              hrtail hstop hcomma
            rw [show sizeF (g :: gtail) + (sizeV v0 + n) =
                sizeV v0 + (sizeF (g :: gtail) + n) from by omega] at h2
            simp [pFields, hob, h0, hbc, h1, hsp, h2]

/-! ## Sizes are bounded by rendered length -/

theorem renderLen : ∀ K : Nat,
    (∀ v, sizeV v ≤ K → ∀ cur, sizeV v ≤ (renderV [] cur v).length) ∧
    (∀ es, sizeL es ≤ K → ∀ cur,
      sizeL es ≤ (joinComma (renderList [] cur es)).length + 1) ∧
    (∀ ps, sizeP ps ≤ K → ∀ cur,
      sizeP ps ≤ (joinComma (renderPairs [] cur ps)).length + 1) ∧
    (∀ fs, sizeF fs ≤ K → ∀ cur,
      sizeF fs ≤ (joinComma (renderFields [] cur fs)).length + 1) := by
  intro K
  induction K with
  | zero =>
    refine ⟨?_, ?_, ?_, ?_⟩
    · intro v hv cur
      exact absurd hv (by have := sizeV_pos v; omega)
    · intro es hsz cur
      cases es with
      | nil => simp [sizeL]
      | cons a b => simp only [sizeL] at hsz; omega
    · intro ps hsz cur
      cases ps with
      | nil => simp [sizeP]
      | cons a b => obtain ⟨k, v⟩ := a; simp only [sizeP] at hsz; omega
    · intro fs hsz cur
      cases fs with
      | nil => simp [sizeF]
      | cons a b => obtain ⟨k, v⟩ := a; simp only [sizeF] at hsz; omega
  | succ K ih =>
    obtain ⟨ihV, ihL, ihP, ihF⟩ := ih
    have hleaf : ∀ v cur, 1 ≤ (renderV [] cur v).length := by
      intro v cur
      obtain ⟨c, t, hct, _⟩ := renderV_head_spec cur v
      rw [hct]
      simp
    refine ⟨?_, ?_, ?_, ?_⟩
    · intro v hv cur
      cases v with
      | map ps =>
        cases ps with
        | nil => simp only [sizeV, sizeP]; exact hleaf (.map []) cur
        | cons p ptail =>
          have h1 := ihP (p :: ptail) (by simp only [sizeV] at hv; omega) cur
          have h2 : (renderV [] cur (.map (p :: ptail))).length =
              (joinComma (renderPairs [] cur (p :: ptail))).length + 11 := by
            simp [renderV]
          simp only [sizeV]
          omega
      | set es =>
        cases es with
        | nil => simp only [sizeV, sizeL]; exact hleaf (.set []) cur
        | cons e etail =>
          have h1 := ihL (e :: etail) (by simp only [sizeV] at hv; omega) cur
          have h2 : (renderV [] cur (.set (e :: etail))).length =
              (joinComma (renderList [] cur (e :: etail))).length + 11 := by
            simp [renderV]
          simp only [sizeV]
          omega
      | arr es =>
        cases es with
        | nil => simp only [sizeV, sizeL]; exact hleaf (.arr []) cur
        | cons e etail =>
          have h1 := ihL (e :: etail) (by simp only [sizeV] at hv; omega) cur
          have h2 : (renderV [] cur (.arr (e :: etail))).length =
              (joinComma (renderList [] cur (e :: etail))).length + 2 := by
            simp [renderV]
          simp only [sizeV]
          omega
      | obj fs =>
        cases fs with
        | nil => simp only [sizeV, sizeF]; exact hleaf (.obj []) cur
        | cons f ftail =>
          have h1 := ihF (f :: ftail) (by simp only [sizeV] at hv; omega) cur
          have h2 : (renderV [] cur (.obj (f :: ftail))).length =
              (joinComma (renderFields [] cur (f :: ftail))).length + 2 := by
            simp [renderV]
          simp only [sizeV]
          omega
      | nullV => simp only [sizeV]; exact hleaf .nullV cur
      | undef => simp only [sizeV]; exact hleaf .undef cur
      | str s => simp only [sizeV]; exact hleaf (.str s) cur
      | num nn => simp only [sizeV]; exact hleaf (.num nn) cur
      | bool b => simp only [sizeV]; exact hleaf (.bool b) cur
      | bigint i => simp only [sizeV]; exact hleaf (.bigint i) cur
      | sym s => simp only [sizeV]; exact hleaf (.sym s) cur
      | date ms => simp only [sizeV]; exact hleaf (.date ms) cur
      | regexp src flags => simp only [sizeV]; exact hleaf (.regexp src flags) cur
      | error a b c => simp only [sizeV]; exact hleaf (.error a b c) cur
    · intro es hsz cur
      cases es with
      | nil => simp [sizeL]
      | cons v tail =>
        have h1 := ihV v (by simp only [sizeL] at hsz; omega) cur
        cases tail with
        | nil =>
          have h2 : joinComma (renderList [] cur [v]) = renderV [] cur v := by
            simp [renderList, joinComma]
          rw [h2]
          simp only [sizeL]
          omega
        | cons w tail' =>
          have h3 := ihL (w :: tail') (by simp only [sizeL] at hsz ⊢; omega) cur
          have h2 : (joinComma (renderList [] cur (v :: w :: tail'))).length =
              (renderV [] cur v).length +
                ((joinComma (renderList [] cur (w :: tail'))).length + 2) := by
            simp [renderList, joinComma]
            try omega
          simp only [sizeL] at h3 ⊢
          omega
    · intro ps hsz cur
      cases ps with
      | nil => simp [sizeP]
      | cons p ptail =>
        obtain ⟨k0, v0⟩ := p
        have hk := ihV k0 (by simp only [sizeP] at hsz; omega) cur
        have hv := ihV v0 (by simp only [sizeP] at hsz; omega) cur
        cases ptail with
        | nil =>
          have h2 : (joinComma (renderPairs [] cur [(k0, v0)])).length =
              (renderV [] cur k0).length + (renderV [] cur v0).length + 4 := by
            simp [renderPairs, joinComma]
            omega
          simp only [sizeP]
          omega
        | cons q qtail =>
          have h3 := ihP (q :: qtail) (by simp only [sizeP] at hsz ⊢; omega) cur
          have h2 : (joinComma (renderPairs [] cur ((k0, v0) :: q :: qtail))).length =
              (renderV [] cur k0).length + (renderV [] cur v0).length +
                ((joinComma (renderPairs [] cur (q :: qtail))).length + 6) := by
            simp [renderPairs, joinComma]
            omega
          simp only [sizeP] at h3 ⊢
          omega
    · intro fs hsz cur
      cases fs with
      | nil => simp [sizeF]
      | cons f ftail =>
        obtain ⟨k0, v0⟩ := f
        have hv := ihV v0 (by simp only [sizeF] at hsz; omega) cur
        cases ftail with
        | nil =>
          have h2 : (joinComma (renderFields [] cur [(k0, v0)])).length =
              (keyChars k0).length + (renderV [] cur v0).length + 2 := by
            simp [renderFields, joinComma]
            omega
          simp only [sizeF]
          omega
        | cons g gtail =>
          have h3 := ihF (g :: gtail) (by simp only [sizeF] at hsz ⊢; omega) cur
          have h2 : (joinComma (renderFields [] cur ((k0, v0) :: g :: gtail))).length =
              (keyChars k0).length + (renderV [] cur v0).length +
                ((joinComma (renderFields [] cur (g :: gtail))).length + 4) := by
            simp [renderFields, joinComma]
            omega
          simp only [sizeF] at h3 ⊢
          omega

/-! ## The loader inverts the renderer -/

theorem matchExportPrefix_none (c : Char) (t : List Char)
    (hw : isWsC c = false) (he : c ≠ 'e') (hm : c ≠ 'm') :
    matchExportPrefix (c :: t) = none := by
  have hdw : (c :: t).dropWhile isWsC = c :: t := by
    rw [List.dropWhile_cons, hw]
    simp
  have h1 : matchLit (("export".data)) (c :: t) = none :=
    matchLit_head_ne _ _ _ _ (fun h2 => he h2.symm)
  have h2 : matchLit (("module".data)) (c :: t) = none :=
    matchLit_head_ne _ _ _ _ (fun h2 => hm h2.symm)
  simp [matchExportPrefix, hdw, h1, h2]

theorem cleanedOf_render (v : JsVal) : cleanedOf (stringify0 v) = stringify0 v := by
  obtain ⟨c, t, hct, hgh⟩ := renderV_head_spec [] v
  have hdata : (stringify0 v).data = c :: t := hct
  rw [cleanedOf, hdata, matchExportPrefix_none c t hgh.1 hgh.2.1 hgh.2.2.1]

/-- The loader is a left inverse of the renderer on every well-formed value
(no-indent renderer instance): this is the amended round-trip statement. -/
theorem parse_stringify0 (v : JsVal) (h : rtOk v = true) :
    parse (stringify0 v) = some v := by
  rw [parse, cleanedOf_render v]
  have hlen := (renderLen (sizeV v)).1 v (le_refl _) []
  have hpe := (parseRound (sizeV v)).1 v (le_refl _) [] []
    ((renderV [] [] v).length + 1 - sizeV v) h trivial
  rw [show sizeV v + ((renderV [] [] v).length + 1 - sizeV v) =
      (renderV [] [] v).length + 1 from by omega] at hpe
  rw [List.append_nil] at hpe
  rw [pLit]
  have hd2 : (stringify0 v).data = renderV [] [] v := rfl
  rw [hd2, hpe]

/-! ## Supporting lemmas for the claim theorems -/

theorem afterStrLit_quote (s : String) (X : List Char) :
    afterStrLit (quoteChars s.data ++ X) = some X := by
  have hin : quoteChars s.data ++ X = '"' :: (escList s.data ++ ('"' :: X)) := by
    simp [quoteChars]
  rw [hin, afterStrLit]
  simp [pStrBody_escList s.data X]

theorem errBodyOk_emitted (name stack : String) :
    errBodyOk (emittedErrBody name stack) = false := by
  have he : emittedErrBody name stack =
      ("e.name=".data) ++ (quoteChars name.data ++ (';' :: (("e.stack=".data) ++
        (quoteChars stack.data ++ ("return e;".data))))) := by
    simp [emittedErrBody]
  rw [he, errBodyOk]
  rw [matchLit_self]
  simp only []
  rw [afterStrLit_quote name (';' :: (("e.stack=".data) ++
    (quoteChars stack.data ++ ("return e;".data))))]
  simp only []
  rw [matchLit_self]
  simp only []
  rw [afterStrLit_quote stack (("return e;".data))]
  simp

theorem errBodyOk_fixed (name stack : String) :
    errBodyOk (fixedErrBody name stack) = true := by
  have he : fixedErrBody name stack =
      ("e.name=".data) ++ (quoteChars name.data ++ (';' :: (("e.stack=".data) ++
        (quoteChars stack.data ++ (';' :: ("return e;".data)))))) := by
    simp [fixedErrBody]
  rw [he, errBodyOk]
  rw [matchLit_self]
  simp only []
  rw [afterStrLit_quote name (';' :: (("e.stack=".data) ++
    (quoteChars stack.data ++ (';' :: ("return e;".data)))))]
  simp only []
  rw [matchLit_self]
  simp only []
  rw [afterStrLit_quote stack (';' :: ("return e;".data))]
  simp only []
  decide

theorem noNl_joinComma (xs : List (List Char)) (h : ∀ x ∈ xs, '\n' ∉ x) :
    '\n' ∉ joinComma xs := by
  induction xs with
  | nil => simp [joinComma]
  | cons x ys ih =>
    cases ys with
    | nil => simpa [joinComma] using h x (by simp)
    | cons y zs =>
      have hj : joinComma (x :: y :: zs) = x ++ (", ".data) ++ joinComma (y :: zs) := rfl
      rw [hj]
      simp only [List.mem_append]
      intro hc
      rcases hc with hc | hc
      · rcases hc with hc | hc
        · exact h x (by simp) hc
        · simp [dataCommaSp] at hc
      · exact ih (fun z hz => h z (by simp [hz])) hc

theorem noNl_renderList (ind cur : List Char) (es : List JsVal)
    (h : ∀ e ∈ es, '\n' ∉ renderV ind cur e) :
    ∀ x ∈ renderList ind cur es, '\n' ∉ x := by
  induction es with
  | nil => simp [renderList]
  | cons e t ih =>
    intro x hx
    rw [renderList] at hx
    rcases List.mem_cons.mp hx with hx | hx
    · subst hx; exact h e (by simp)
    · exact ih (fun z hz => h z (by simp [hz])) x hx

theorem noNl_renderPairs (ind cur : List Char) (entries : List (JsVal × JsVal))
    (h : ∀ p ∈ entries, '\n' ∉ renderV ind cur p.1 ∧ '\n' ∉ renderV ind cur p.2) :
    ∀ x ∈ renderPairs ind cur entries, '\n' ∉ x := by
  induction entries with
  | nil => simp [renderPairs]
  | cons p ps ih =>
    obtain ⟨k, v⟩ := p
    intro x hx
    rw [renderPairs] at hx
    rcases List.mem_cons.mp hx with hx | hx
    · subst hx
      have hk := (h (k, v) (by simp)).1
      have hv := (h (k, v) (by simp)).2
      intro hc
      simp [List.mem_cons, List.mem_append, dataCommaSp, hk, hv] at hc
    · exact ih (fun q hq => h q (by simp [hq])) x hx

/-! ## Claim theorems -/

/-- Claim C1 (corrected): for every well-formed supported value — primitives,
the three numeric sentinels, both symbol kinds, dates, regular expressions,
maps, sets, arrays and nested records with identifier string keys or symbol
keys — the loader inverts the renderer: `parse (stringify0 v) = some v`.
`rtOk` carries the restrictions the counterexample forces (no bigint values,
registered symbols need a nonempty key, record string keys are identifiers). -/
theorem claim1_round_trip (v : JsVal) (h : rtOk v = true) :
    parse (stringify0 v) = some v :=
  parse_stringify0 v h

/-- Witness for C1: the round trip at a concrete record covering every
supported kind of the claim at once. -/
theorem claim1_round_trip_witness :
    rtOk (JsVal.obj [(.str "a", .nullV), (.str "b", .undef), (.str "c", .bool true),
      (.str "d", .num (.fin 42)), (.str "e1", .num .nan), (.str "f", .num .inf),
      (.str "g", .num .ninf), (.str "h", .str "hi"),
      (.str "i", .sym (.loc none)), (.str "j", .sym (.loc (some "desc"))),
      (.str "k", .sym (.glob "reg")), (.str "l", .date 1700000000000),
      (.str "m1", .regexp "ab+" "gi"),
      (.str "n1", .map [(.num (.fin 2), .bool false)]),
      (.str "o", .set [.str "s", .num (.fin 3)]),
      (.str "p", .arr [.num (.fin (-7)), .arr [.nullV]]),
      (.sym (.glob "sk"), .obj [(.str "q", .num (.fin 7))])]) = true ∧
    parse (stringify0 (JsVal.obj [(.str "a", .nullV), (.str "b", .undef),
      (.str "c", .bool true),
      (.str "d", .num (.fin 42)), (.str "e1", .num .nan), (.str "f", .num .inf),
      (.str "g", .num .ninf), (.str "h", .str "hi"),
      (.str "i", .sym (.loc none)), (.str "j", .sym (.loc (some "desc"))),
      (.str "k", .sym (.glob "reg")), (.str "l", .date 1700000000000),
      (.str "m1", .regexp "ab+" "gi"),
      (.str "n1", .map [(.num (.fin 2), .bool false)]),
      (.str "o", .set [.str "s", .num (.fin 3)]),
      (.str "p", .arr [.num (.fin (-7)), .arr [.nullV]]),
      (.sym (.glob "sk"), .obj [(.str "q", .num (.fin 7))])])) =
    some (JsVal.obj [(.str "a", .nullV), (.str "b", .undef), (.str "c", .bool true),
      (.str "d", .num (.fin 42)), (.str "e1", .num .nan), (.str "f", .num .inf),
      (.str "g", .num .ninf), (.str "h", .str "hi"),
      (.str "i", .sym (.loc none)), (.str "j", .sym (.loc (some "desc"))),
      (.str "k", .sym (.glob "reg")), (.str "l", .date 1700000000000),
      (.str "m1", .regexp "ab+" "gi"),
      (.str "n1", .map [(.num (.fin 2), .bool false)]),
      (.str "o", .set [.str "s", .num (.fin 3)]),
      (.str "p", .arr [.num (.fin (-7)), .arr [.nullV]]),
      (.sym (.glob "sk"), .obj [(.str "q", .num (.fin 7))])]) :=
  ⟨by decide, claim1_round_trip _ (by decide)⟩

/-- Counterexample for C1: a record key that is not an identifier makes the
emitted text unevaluable; a bigint value comes back a number; a registered
symbol with empty key comes back an unregistered symbol. -/
theorem claim1_round_trip_cex :
    parse (stringify0 (.obj [(.str "a b", .nullV)])) = none ∧
    (stringify0 (.bigint 10) = "10" ∧ parse ("10") = some (.num (.fin 10)) ∧
      JsVal.num (.fin 10) ≠ .bigint 10) ∧
    (stringify0 (.sym (.glob "")) = "Symbol(\"\")" ∧
      parse ("Symbol(\"\")") = some (.sym (.loc (some ""))) ∧
      JsVal.sym (.loc (some "")) ≠ .sym (.glob "")) := by
  refine ⟨rfl, ⟨?_, rfl, by simp⟩, ⟨rfl, ?_, by simp⟩⟩
  · simp [stringify0, stringify, renderV, intChars, natToChars]
    rfl
  · have hm : munchIdent ('S' :: 'y' :: 'm' :: 'b' :: 'o' :: 'l' ::
        ('(' :: '"' :: (escList ("".data) ++ ('"' :: (')' :: []))))) =
        (("Symbol".data), '(' :: '"' :: (escList ("".data) ++ ('"' :: (')' :: [])))) :=
      munchIdent_append ("Symbol".data) _ (by decide) (headNotIdent_cons _ _ (by decide))
    have hst := pSymbolTail_locSome "" []
    show pLit ['S', 'y', 'm', 'b', 'o', 'l', '(', '"', '"', ')'] =
      some (.sym (.loc (some "")))
    rw [pLit]
    have hpe : pExpr 11 ['S', 'y', 'm', 'b', 'o', 'l', '(', '"', '"', ')'] =
        some (.sym (.loc (some "")), []) := by
      simp only [show (['S', 'y', 'm', 'b', 'o', 'l', '(', '"', '"', ')'] : List Char) =
        'S' :: 'y' :: 'm' :: 'b' :: 'o' :: 'l' ::
          ('(' :: '"' :: (escList ("".data) ++ ('"' :: (')' :: [])))) from rfl]
      simp [pExpr, hm, hst, isDigitC, isIdentStartC, isAlphaC, lbraceC]
    rw [show (['S', 'y', 'm', 'b', 'o', 'l', '(', '"', '"', ')'] : List Char).length + 1 = 11
      from rfl, hpe]

/-- Claim C2 (corrected): the symbol classifier emits the global-retrieval
form `Symbol.for("K")` exactly for symbols registered under a NONEMPTY key
(the truthiness test misclassifies the empty registry key), and otherwise
the local constructor form `Symbol()` / `Symbol("d")`. -/
theorem claim2_symbol_classifier :
    (∀ s : JsSym,
      ((matchLit (("Symbol.for(".data)) (symbolChars s)).isSome = true ↔
        (∃ k : String, s = .glob k ∧ k ≠ ""))) ∧
    symbolChars (.loc none) = ("Symbol()".data) ∧
    (∀ d : String, symbolChars (.loc (some d)) =
      ("Symbol(".data) ++ (quoteChars d.data ++ [')'])) ∧
    (∀ k : String, k ≠ "" →
      symbolChars (.glob k) = ("Symbol.for(".data) ++ (quoteChars k.data ++ [')'])) := by
  refine ⟨?_, rfl, ?_, ?_⟩
  · intro s
    cases s with
    | loc d =>
      cases d with
      | none =>
        simp [symbolChars, keyFor, symbolChars.localSymbolChars, symDescr, matchLit]
      | some dd =>
        have hL : (matchLit (("Symbol.for(".data))
            (symbolChars (.loc (some dd)))).isSome = false := by
          simp [symbolChars, keyFor, symbolChars.localSymbolChars, symDescr, quoteChars,
            matchLit]
        simp [hL]
    | glob k =>
      by_cases hk : k.data = []
      · have hk0 : k = "" := by
          cases k with
          | mk d => simp at hk; rw [hk]
        subst hk0
        have hL : (matchLit (("Symbol.for(".data)) (symbolChars (.glob ""))).isSome =
            false := by decide
        simp [hL]
      · have hL : (matchLit (("Symbol.for(".data)) (symbolChars (.glob k))).isSome =
            true := by
          simp only [symbolChars, keyFor, hk, ne_eq, not_false_eq_true, if_true, ite_true]
          rw [show ("Symbol.for(".data) ++ quoteChars k.data ++ [')'] =
            ("Symbol.for(".data) ++ (quoteChars k.data ++ [')']) from by simp]
          rw [matchLit_self]
          rfl
        rw [hL]
        simp only [true_iff]
        refine ⟨k, rfl, ?_⟩
        intro h
        apply hk
        rw [h]
  · intro d
    simp [symbolChars, keyFor, symbolChars.localSymbolChars, symDescr]
  · intro k hk
    have hkd : k.data ≠ [] := by
      intro h
      apply hk
      cases k with
      | mk d => simp at h; rw [h]
    simp [symbolChars, keyFor, hkd]

/-- Witness for C2: the classifier at the concrete registered symbol key
`"g"`. -/
theorem claim2_symbol_classifier_witness :
    symbolChars (.glob "g") = ("Symbol.for(".data) ++ (quoteChars ("g".data) ++ [')']) ∧
    (matchLit (("Symbol.for(".data)) (symbolChars (.glob "g"))).isSome = true :=
  ⟨claim2_symbol_classifier.2.2.2 "g" (by decide),
   (claim2_symbol_classifier.1 (.glob "g")).mpr ⟨"g", rfl, by decide⟩⟩

/-- Counterexample for C2: the canonical classifier sends the empty-key
registered symbol to the local form, and the part_001 variant swaps the two
branches outright. -/
theorem claim2_branch_swap_cex :
    (matchLit (("Symbol.for(".data)) (symbolChars (.glob ""))).isSome = false ∧
    symbolChars (.glob "") = symbolChars (.loc (some "")) ∧
    (matchLit (("Symbol.for(".data))
      (stringifySymbolCommon (.loc (some "d")))).isSome = true ∧
    (matchLit (("Symbol.for(".data)) (stringifySymbolCommon (.glob "k"))).isSome =
      false := by
  decide

/-- Claim C3 (code bug): `stringify` clears the visited set by a plain
statement after the recursive call, so the error path keeps the entries: on
the self-referencing record the call returns the cyclic error with the
visited set still holding the record's id, while only the success path ends
with the set empty. -/
theorem claim3_visited_set_leak : ∀ n : Nat,
    (stringifyS (n + 3) selfObjStore (.ref 0)).1 = .error .cyclic ∧
    (stringifyS (n + 3) selfObjStore (.ref 0)).2 = [0] ∧
    (stringifyS (n + 3) [SNode.obj [("a", SVal.atom "1")]] (.ref 0)).1 =
      .ok "\x7ba: 1\x7d" ∧
    (stringifyS (n + 3) [SNode.obj [("a", SVal.atom "1")]] (.ref 0)).2 = [] := by
  intro n
  refine ⟨?_, ?_, ?_, ?_⟩
  · simp [stringifyS, sstringify, smany, cyclicCheck, selfObjStore]
  · simp [stringifyS, sstringify, smany, cyclicCheck, selfObjStore]
  · simp [stringifyS, sstringify, smany, cyclicCheck]
    rfl
  · simp [stringifyS, sstringify, smany, cyclicCheck]

/-- Claim C4 (confirmed): a record containing itself, a self-referencing
array and an indirect two-record cycle all end in the cyclic-value error at
every sufficient stack depth — never in the stack-depth failure. -/
theorem claim4_cyclic_error_not_overflow : ∀ n : Nat,
    (stringifyS (n + 3) selfObjStore (.ref 0)).1 = .error .cyclic ∧
    (stringifyS (n + 3) selfArrStore (.ref 0)).1 = .error .cyclic ∧
    (stringifyS (n + 5) twoCycleStore (.ref 0)).1 = .error .cyclic ∧
    (stringifyS (n + 3) selfObjStore (.ref 0)).1 ≠ .error .stackOverflow ∧
    (stringifyS (n + 3) selfArrStore (.ref 0)).1 ≠ .error .stackOverflow ∧
    (stringifyS (n + 5) twoCycleStore (.ref 0)).1 ≠ .error .stackOverflow := by
  intro n
  refine ⟨?_, ?_, ?_, ?_, ?_, ?_⟩ <;>
    simp [stringifyS, sstringify, smany, cyclicCheck, selfObjStore, selfArrStore,
      twoCycleStore]

/-- Claim C5 (code bug): the wrapper regex is anchored at the start of the
whole string, so an export wrapper at the start of the string is stripped,
but helper statements on earlier lines leave the wrapper in place and the
evaluation of the whole text as one expression fails. -/
theorem claim5_wrapper_anchoring :
    cleanedOf ("  export  default null") = "null" ∧
    parse ("  export  default null") = some .nullV ∧
    cleanedOf ("module.exports = null") = "null" ∧
    parse ("module.exports = null") = some .nullV ∧
    cleanedOf ("const a = 7;\nexport default a") = ("const a = 7;\nexport default a") ∧
    parse ("const a = 7;\nexport default a") = none :=
  ⟨rfl, rfl, rfl, rfl, rfl, rfl⟩

/-- Claim C6 (code bug): the module-wrapper generator accepts the two module
kinds, reports an error on every other kind, and — against the claim —
ignores the caller-supplied preamble entirely: the output never depends on
it. -/
theorem claim6_generate_export_module :
    (∀ (d : String) (pre : Option String),
      generateExportModule d "esm" pre = generateExportModule d "esm" none ∧
      generateExportModule d "cjs" pre = generateExportModule d "cjs" none ∧
      generateExportModule d "esm" pre = .ok ("export default " ++ d ++ "\n") ∧
      generateExportModule d "cjs" pre = .ok ("module.exports = " ++ d ++ "\n")) ∧
    (∀ (d mt : String) (pre : Option String), mt ≠ "esm" → mt ≠ "cjs" →
      generateExportModule d mt pre = .error ("Unsupported module type: " ++ mt)) ∧
    generateExportModule "null" "esm" (some "const helper = 1;") =
      .ok ("export default null\n") := by
  refine ⟨fun d pre => ⟨rfl, rfl, rfl, rfl⟩, ?_, rfl⟩
  intro d mt pre h1 h2
  simp [generateExportModule, h1, h2]

/-- Witness for C6: the generator at concrete arguments, including a
rejected module kind. -/
theorem claim6_generate_export_module_witness :
    generateExportModule "1" "esm" (some "const x = 1;") = .ok ("export default 1\n") ∧
    generateExportModule "1" "weird" none = .error ("Unsupported module type: weird") :=
  ⟨(claim6_generate_export_module.1 "1" (some "const x = 1;")).2.2.1,
   claim6_generate_export_module.2.1 "1" "weird" none (by decide) (by decide)⟩

/-- Claim C7 (code bug): the Error rendering is the self-invoking arrow
construction carrying the name, message and stack strings, but its arrow
body lacks the statement separator between the stack string literal and
`return e;`, so the body is not the well-formed two-assignments-and-return
sequence; restoring the separator makes it well-formed. -/
theorem claim7_error_render : ∀ name msg stack : String,
    stringify0 (.error name msg stack) = ⟨errorChars name msg stack⟩ ∧
    errorChars name msg stack =
      ("((e)=>".data) ++ ([lbraceC] ++ (emittedErrBody name stack ++
        ([rbraceC] ++ ((")(new Error(".data) ++
          (quoteChars msg.data ++ ("))".data)))))) ∧
    errBodyOk (emittedErrBody name stack) = false ∧
    errBodyOk (fixedErrBody name stack) = true := by
  intro name msg stack
  refine ⟨rfl, ?_, errBodyOk_emitted name stack, errBodyOk_fixed name stack⟩
  simp [errorChars, emittedErrBody]

/-- Claim C8 (confirmed): the same record reachable at two sibling positions
of one record — a DAG, not a cycle — raises the cyclic-value error, for
every leaf payload and every sufficient stack depth. -/
theorem claim8_shared_sibling_cyclic : ∀ (p : String) (n : Nat),
    (stringifyS (n + 5) (sharedStore p) (.ref 0)).1 = .error .cyclic := by
  intro p n
  simp [stringifyS, sstringify, smany, cyclicCheck, sharedStore]

/-- Claim C9 (confirmed): the Map and Set constructor literals are rendered
inline — no line break of their own — for every indent configuration
whenever their members render without line breaks, while nonempty arrays and
records under a nonempty indent are laid out multiline. -/
theorem claim9_map_set_inline :
    (∀ (ind cur : List Char) (entries : List (JsVal × JsVal)),
      (∀ p ∈ entries, '\n' ∉ renderV ind cur p.1 ∧ '\n' ∉ renderV ind cur p.2) →
      '\n' ∉ renderV ind cur (.map entries)) ∧
    (∀ (ind cur : List Char) (es : List JsVal),
      (∀ e ∈ es, '\n' ∉ renderV ind cur e) → '\n' ∉ renderV ind cur (.set es)) ∧
    (∀ (ind cur : List Char) (es : List JsVal), ind ≠ [] → es ≠ [] →
      '\n' ∈ renderV ind cur (.arr es)) ∧
    (∀ (ind cur : List Char) (fs : List (JsKey × JsVal)), ind ≠ [] → fs ≠ [] →
      '\n' ∈ renderV ind cur (.obj fs)) := by
  refine ⟨?_, ?_, ?_, ?_⟩
  · intro ind cur entries h
    have hj := noNl_joinComma _ (noNl_renderPairs ind cur entries h)
    simp only [renderV]
    intro hc
    simp [dataNewMap, dataBrkPar, List.mem_append, List.mem_cons, hj] at hc
  · intro ind cur es h
    have hj := noNl_joinComma _ (noNl_renderList ind cur es h)
    simp only [renderV]
    intro hc
    simp [dataNewSet, dataBrkPar, List.mem_append, List.mem_cons, hj] at hc
  · intro ind cur es hind hes
    cases es with
    | nil => exact absurd rfl hes
    | cons e t =>
      have h1 : (e :: t).isEmpty = false := rfl
      have h2 : ind.isEmpty = false := by
        cases ind with
        | nil => exact absurd rfl hind
        | cons c cs => rfl
      simp [renderV, h1, h2]
  · intro ind cur fs hind hfs
    cases fs with
    | nil => exact absurd rfl hfs
    | cons f t =>
      have h1 : (f :: t).isEmpty = false := rfl
      have h2 : ind.isEmpty = false := by
        cases ind with
        | nil => exact absurd rfl hind
        | cons c cs => rfl
      simp [renderV, h1, h2]

/-- Witness for C9: a two-space indent renders a one-entry Map and a
one-element Set inline, while a one-element array and a one-field record go
multiline. -/
theorem claim9_map_set_inline_witness :
    '\n' ∉ renderV [' ', ' '] [] (.map [(.nullV, .bool true)]) ∧
    '\n' ∉ renderV [' ', ' '] [] (.set [.undef]) ∧
    '\n' ∈ renderV [' ', ' '] [] (.arr [.nullV]) ∧
    '\n' ∈ renderV [' ', ' '] [] (.obj [(.str "a", .nullV)]) :=
  ⟨claim9_map_set_inline.1 [' ', ' '] [] [(.nullV, .bool true)] (by decide),
   claim9_map_set_inline.2.1 [' ', ' '] [] [.undef] (by decide),
   claim9_map_set_inline.2.2.1 [' ', ' '] [] [.nullV]
     (List.cons_ne_nil _ _) (List.cons_ne_nil _ _),
   claim9_map_set_inline.2.2.2 [' ', ' '] [] [(.str "a", .nullV)]
     (List.cons_ne_nil _ _) (List.cons_ne_nil _ _)⟩

/-- Claim C10 (confirmed): a bigint value renders as its bare decimal digits
with no `n` suffix, the loader evaluates those digits as a double, and for
`2 ^ 53 + 1` the re-entered number differs from the original magnitude. -/
theorem claim10_bigint_digits :
    (∀ b : Int, stringify0 (.bigint b) = ⟨intChars b⟩ ∧
      ('n' ∉ intChars b) ∧
      parse (stringify0 (.bigint b)) = some (.num (.fin (roundInt b)))) ∧
    roundInt 9007199254740993 = 9007199254740992 ∧
    (9007199254740993 : Int) ≠ 9007199254740992 := by
  refine ⟨?_, by decide, by decide⟩
  intro b
  refine ⟨rfl, ?_, ?_⟩
  · intro hmem
    rw [intChars] at hmem
    by_cases hneg : b < 0
    · rw [if_pos hneg] at hmem
      rcases List.mem_cons.mp hmem with h | h
      · exact absurd h (by decide)
      · exact absurd (natToChars_digits b.natAbs _ h) (by decide)
    · rw [if_neg hneg] at hmem
      exact absurd (natToChars_digits b.natAbs _ hmem) (by decide)
  · rw [parse, cleanedOf_render (.bigint b), pLit]
    have hd2 : (stringify0 (.bigint b)).data = intChars b := rfl
    rw [hd2]
    have hpe := pExpr_intChars ((intChars b).length) b [] trivial
    rw [List.append_nil] at hpe
    rw [hpe]

end PseudoJson
